import Mathlib

/-!
A shallow embedding of `src/TunnelRouting/TunnelReduction.c` (Tunnel Routing
reduction to SAT) and a verification of its specification claims.

Z3 ASTs are modelled by the deep `Formula` type below; `Z3_mk_and(ctx, n, a)`
and `Z3_mk_or(ctx, n, a)` are modelled by `mkAnd`/`mkOr` over the list of the
`n` arguments.  Boolean variables are modelled by the `Var` type: the C code
names its variables by `snprintf` patterns that are injective in the family
and the integer arguments, so a variable is exactly one of `x node pos height`
(`"node %d,pos %d, height %d"`), `y4 pos height` (`"4 at height %d on pos %d"`)
or `y6 pos height` (`"6 at height %d on pos %d"`).  A Z3 model is a valuation
`Var → Bool`; `value_of_var_in_model` is function application.

Integer loop indices of the C code are ints; heights, positions and node
indices appear as `Int` in variables (the decoder uses the sentinel `-1`),
while loop ranges are the lists `intRange n` of the ints `0 … n-1`.
-/

/-- The two stack protocols `{4, 6}` labelling a stack cell. -/
inductive Prot where
  | p4
  | p6
deriving DecidableEq, Repr

/-- The ten actions of `TunnelNetwork.h`, in their fixed numeric order
(`transmit_4 = 0`, …, `pop_6_6 = 9`). -/
inductive TnAction where
  | transmit_4
  | transmit_6
  | push_4_4
  | push_4_6
  | push_6_4
  | push_6_6
  | pop_4_4
  | pop_4_6
  | pop_6_4
  | pop_6_6
deriving DecidableEq, Repr

/-- The Boolean variables produced by `tn_path_variable`, `tn_4_variable` and
`tn_6_variable`: the three `snprintf` name schemes are injective and mutually
disjoint, so a variable is identified by its family and integer arguments. -/
inductive Var where
  | x (node : Int) (pos : Int) (height : Int)
  | y4 (pos : Int) (height : Int)
  | y6 (pos : Int) (height : Int)
deriving DecidableEq, Repr

/-- The Z3 formula ASTs the reduction builds (`Z3_mk_true`, `Z3_mk_false`,
variables, `Z3_mk_not`, binary layers of `Z3_mk_and`/`Z3_mk_or`,
`Z3_mk_implies`, `Z3_mk_iff`, `Z3_mk_xor`). -/
inductive Formula where
  | tt
  | ff
  | var (v : Var)
  | not (f : Formula)
  | and (a b : Formula)
  | or (a b : Formula)
  | implies (a b : Formula)
  | iff (a b : Formula)
  | xor (a b : Formula)
deriving DecidableEq, Repr

/-- `Z3_mk_and(ctx, n, args)`: conjunction of a list (empty list is true). -/
def mkAnd (l : List Formula) : Formula := l.foldr Formula.and Formula.tt

/-- `Z3_mk_or(ctx, n, args)`: disjunction of a list (empty list is false). -/
def mkOr (l : List Formula) : Formula := l.foldr Formula.or Formula.ff

/-- Evaluation of a formula under a model (a valuation of the variables). -/
def Formula.eval (v : Var → Bool) : Formula → Bool
  | .tt => true
  | .ff => false
  | .var w => v w
  | .not f => !(f.eval v)
  | .and a b => a.eval v && b.eval v
  | .or a b => a.eval v || b.eval v
  | .implies a b => !(a.eval v) || b.eval v
  | .iff a b => a.eval v == b.eval v
  | .xor a b => a.eval v != b.eval v

/-- The variables occurring in a formula. -/
def Formula.vars : Formula → List Var
  | .tt => []
  | .ff => []
  | .var w => [w]
  | .not f => f.vars
  | .and a b => a.vars ++ b.vars
  | .or a b => a.vars ++ b.vars
  | .implies a b => a.vars ++ b.vars
  | .iff a b => a.vars ++ b.vars
  | .xor a b => a.vars ++ b.vars

/-- The ints `0, 1, …, n-1`, as iterated by the C `for` loops. -/
def intRange (n : Nat) : List Int := (List.range n).map (Nat.cast : Nat → Int)

/-- All pairs `(l[p], l[q])` with `p < q`, in the order of the two nested
C loops of `tn_exist_uniqueOp_uniqueHeight`. -/
def allPairs {α : Type} : List α → List (α × α)
  | [] => []
  | a :: rest => rest.map (fun b => (a, b)) ++ allPairs rest

/-- The network collaborator interface consumed by the reduction
(`tn_get_num_nodes`, `tn_get_initial`, `tn_get_final`, `tn_is_edge`,
`tn_node_has_action`); nodes of the network are `0 … numNodes-1`. -/
structure TunnelNetwork where
  numNodes : Nat
  initial : Int
  final : Int
  isEdge : Int → Int → Bool
  hasAction : Int → TnAction → Bool

/-- `tn_path_variable`: the variable `x_{node,pos,stack_height}`. -/
def tn_path_variable (node pos stack_height : Int) : Formula :=
  Formula.var (Var.x node pos stack_height)

/-- `tn_4_variable`: the variable `y_{pos,height,4}`. -/
def tn_4_variable (pos height : Int) : Formula :=
  Formula.var (Var.y4 pos height)

/-- `tn_6_variable`: the variable `y_{pos,height,6}`. -/
def tn_6_variable (pos height : Int) : Formula :=
  Formula.var (Var.y6 pos height)

/-- `get_stack_size`: `length / 2 + 1` (C integer division; `length ≥ 0`). -/
def get_stack_size (length : Nat) : Nat := length / 2 + 1

/-- `tn_any_node_at`: disjunction over all nodes of `x_{i,pos,height}`. -/
def tn_any_node_at (num_nodes : Nat) (pos height : Int) : Formula :=
  mkOr ((intRange num_nodes).map (fun i => tn_path_variable i pos height))

/-- φ1, `tn_exist_uniqueOp_uniqueHeight`: at every position `i ∈ [0,length]`,
at least one of the variables `x_{op,i,h}` (`h` outer, `op` inner) is true,
and no two of them are both true (pairwise clauses `¬a ∨ ¬b`). -/
def tn_exist_uniqueOp_uniqueHeight (network : TunnelNetwork) (length : Nat) : Formula :=
  let stack_size := get_stack_size length
  let num_nodes := network.numNodes
  mkAnd ((intRange (length + 1)).map (fun i =>
    let vars := (intRange stack_size).flatMap (fun h =>
      (intRange num_nodes).map (fun op => tn_path_variable op i h))
    let existence := mkOr vars
    let uniq := mkAnd ((allPairs vars).map (fun pq =>
      mkOr [Formula.not pq.1, Formula.not pq.2]))
    mkAnd [existence, uniq]))

/-- φ2, `tn_init_final_stack`:
`(x_{init,0,0} ∧ y4_{0,0}) ∧ (x_{final,length,0} ∧ y4_{length,0})`. -/
def tn_init_final_stack (network : TunnelNetwork) (length : Nat) : Formula :=
  let init := network.initial
  let final := network.final
  let init_state := mkAnd [tn_path_variable init 0 0, tn_4_variable 0 0]
  let final_state := mkAnd [tn_path_variable final (length : Int) 0,
                            tn_4_variable (length : Int) 0]
  mkAnd [init_state, final_state]

/-- φ3, `tn_transition_stack_height`: for each `(h, u)`, if `u` is at `(pos,h)`
and some node is at `(pos+1,h)` then `y4_{pos,h}` requires `transmit_4 ∈ Cap(u)`
and `y6_{pos,h}` requires `transmit_6 ∈ Cap(u)`. -/
def tn_transition_stack_height (network : TunnelNetwork) (length : Nat) (pos : Int) : Formula :=
  let stack_size := get_stack_size length
  let num_nodes := network.numNodes
  mkAnd ((intRange stack_size).flatMap (fun h =>
    (intRange num_nodes).map (fun u =>
      let premise := mkAnd [tn_path_variable u pos h,
                            tn_any_node_at num_nodes (pos + 1) h]
      let y4 := tn_4_variable pos h
      let y6 := tn_6_variable pos h
      let can_t4 := if network.hasAction u TnAction.transmit_4 then Formula.tt else Formula.ff
      let can_t6 := if network.hasAction u TnAction.transmit_6 then Formula.tt else Formula.ff
      let valid_4 := Formula.implies y4 can_t4
      let valid_6 := Formula.implies y6 can_t6
      Formula.implies premise (mkAnd [valid_4, valid_6]))))

/-- φ4, `tn_encapsulation_stack_height`: for each `h ∈ [0,H-1)` and node `u`,
if `u` is at `(pos,h)` and some node is at `(pos+1,h+1)` then each combination
of `y4/y6` at `(pos,h)` and at `(pos+1,h+1)` requires the corresponding
`push_X_Y ∈ Cap(u)`.  Returns true when `H ≤ 1`. -/
def tn_encapsulation_stack_height (network : TunnelNetwork) (length : Nat) (pos : Int) : Formula :=
  let stack_size := get_stack_size length
  if stack_size ≤ 1 then Formula.tt else
  let num_nodes := network.numNodes
  mkAnd ((intRange (stack_size - 1)).flatMap (fun h =>
    (intRange num_nodes).map (fun u =>
      let premise := mkAnd [tn_path_variable u pos h,
                            tn_any_node_at num_nodes (pos + 1) (h + 1)]
      let y4_curr := tn_4_variable pos h
      let y6_curr := tn_6_variable pos h
      let y4_next := tn_4_variable (pos + 1) (h + 1)
      let y6_next := tn_6_variable (pos + 1) (h + 1)
      let c1 := Formula.implies (mkAnd [y4_curr, y4_next])
        (if network.hasAction u TnAction.push_4_4 then Formula.tt else Formula.ff)
      let c2 := Formula.implies (mkAnd [y4_curr, y6_next])
        (if network.hasAction u TnAction.push_4_6 then Formula.tt else Formula.ff)
      let c3 := Formula.implies (mkAnd [y6_curr, y4_next])
        (if network.hasAction u TnAction.push_6_4 then Formula.tt else Formula.ff)
      let c4 := Formula.implies (mkAnd [y6_curr, y6_next])
        (if network.hasAction u TnAction.push_6_6 then Formula.tt else Formula.ff)
      Formula.implies premise (mkAnd [c1, c2, c3, c4]))))

/-- The pop action required by φ5 as a function of the protocol bits it tests:
`y4` at `(pos,h)` (old top is 4) and `y4` at `(pos,h-1)` (cell below is 4).
Case 1 of the C code: top 4, under 4 → `pop_4_4`; case 2: top 4, under 6 →
`pop_6_4`; case 3: top 6, under 4 → `pop_4_6`; case 4: top 6, under 6 →
`pop_6_6` (the "below,top" naming convention). -/
def phi5RequiredPopAction (top_is_4 under_is_4 : Bool) : TnAction :=
  if top_is_4 then
    (if under_is_4 then TnAction.pop_4_4 else TnAction.pop_6_4)
  else
    (if under_is_4 then TnAction.pop_4_6 else TnAction.pop_6_6)

/-- φ5, `tn_decapsulation_stack_height`: for each `h ∈ [1,H)` and node `u`, if
`u` is at `(pos,h)` and some node is at `(pos+1,h-1)` then each combination of
old-top `y4/y6` at `(pos,h)` and below-cell `y4/y6` at `(pos,h-1)` requires the
corresponding `pop_below_top ∈ Cap(u)`.  Returns true when `H ≤ 1`. -/
def tn_decapsulation_stack_height (network : TunnelNetwork) (length : Nat) (pos : Int) : Formula :=
  let stack_size := get_stack_size length
  if stack_size ≤ 1 then Formula.tt else
  let num_nodes := network.numNodes
  mkAnd (((intRange (stack_size - 1)).map (fun t => t + 1)).flatMap (fun h =>
    (intRange num_nodes).map (fun u =>
      let premise := mkAnd [tn_path_variable u pos h,
                            tn_any_node_at num_nodes (pos + 1) (h - 1)]
      let y4_top := tn_4_variable pos h
      let y6_top := tn_6_variable pos h
      let y4_under := tn_4_variable pos (h - 1)
      let y6_under := tn_6_variable pos (h - 1)
      let c1 := Formula.implies (mkAnd [y4_top, y4_under])
        (if network.hasAction u TnAction.pop_4_4 then Formula.tt else Formula.ff)
      let c2 := Formula.implies (mkAnd [y4_top, y6_under])
        (if network.hasAction u TnAction.pop_6_4 then Formula.tt else Formula.ff)
      let c3 := Formula.implies (mkAnd [y6_top, y4_under])
        (if network.hasAction u TnAction.pop_4_6 then Formula.tt else Formula.ff)
      let c4 := Formula.implies (mkAnd [y6_top, y6_under])
        (if network.hasAction u TnAction.pop_6_6 then Formula.tt else Formula.ff)
      Formula.implies premise (mkAnd [c1, c2, c3, c4]))))

/-- φ6, `tn_stack_content_coherence`: for every height `h ∈ [0,H)`,
`y4_{pos,h} XOR y6_{pos,h}` — unconditionally, with no premise about a node
being live at `(pos,h)`. -/
def tn_stack_content_coherence (length : Nat) (pos : Int) : Formula :=
  let stack_size := get_stack_size length
  mkAnd ((intRange stack_size).map (fun h =>
    Formula.xor (tn_4_variable pos h) (tn_6_variable pos h)))

/-- φ7, `tn_operation_feasibility`: for each `(h, u)`, when `u` has no action
with input-top 4 emit `x_{u,pos,h} → ¬y4_{pos,h}`, and when `u` has no action
with input-top 6 emit `x_{u,pos,h} → ¬y6_{pos,h}`. -/
def tn_operation_feasibility (network : TunnelNetwork) (length : Nat) (pos : Int) : Formula :=
  let stack_size := get_stack_size length
  let num_nodes := network.numNodes
  mkAnd ((intRange stack_size).flatMap (fun h =>
    (intRange num_nodes).flatMap (fun u =>
      let active := tn_path_variable u pos h
      let y4 := tn_4_variable pos h
      let y6 := tn_6_variable pos h
      let can_input_4 := network.hasAction u TnAction.transmit_4 ||
                         network.hasAction u TnAction.push_4_4 ||
                         network.hasAction u TnAction.push_4_6 ||
                         network.hasAction u TnAction.pop_4_4 ||
                         network.hasAction u TnAction.pop_6_4
      let can_input_6 := network.hasAction u TnAction.transmit_6 ||
                         network.hasAction u TnAction.push_6_4 ||
                         network.hasAction u TnAction.push_6_6 ||
                         network.hasAction u TnAction.pop_4_6 ||
                         network.hasAction u TnAction.pop_6_6
      (if can_input_4 then [] else [Formula.implies active (Formula.not y4)]) ++
      (if can_input_6 then [] else [Formula.implies active (Formula.not y6)]))))

/-- `tn_prefix_equal`: cells `0 … limit-1` are identical (for both protocols)
between `pos` and `next_pos`; true when `limit ≤ 0`. -/
def tn_prefix_equal (pos next_pos : Int) (limit : Int) : Formula :=
  if limit ≤ 0 then Formula.tt else
  mkAnd ((intRange limit.toNat).map (fun j =>
    mkAnd [Formula.iff (tn_4_variable pos j) (tn_4_variable next_pos j),
           Formula.iff (tn_6_variable pos j) (tn_6_variable next_pos j)]))

/-- φ8, `tn_stack_preservation_transmission`: if some node is at `(pos,h)` and
some node at `(pos+1,h)`, cells `0 … h-1` are preserved. -/
def tn_stack_preservation_transmission (num_nodes : Nat) (pos h : Int) : Formula :=
  let any_at_h := tn_any_node_at num_nodes pos h
  let next_at_h := tn_any_node_at num_nodes (pos + 1) h
  Formula.implies (mkAnd [any_at_h, next_at_h]) (tn_prefix_equal pos (pos + 1) h)

/-- φ9, `tn_stack_preservation_encapsulation`: if some node is at `(pos,h)` and
some node at `(pos+1,h+1)` (only when `h+1` is a valid height), cells `0 … h`
are preserved. -/
def tn_stack_preservation_encapsulation (num_nodes stack_size : Nat) (pos h : Int) : Formula :=
  let any_at_h := tn_any_node_at num_nodes pos h
  let next_at_h_plus := if h + 1 < (stack_size : Int)
    then tn_any_node_at num_nodes (pos + 1) (h + 1) else Formula.ff
  Formula.implies (mkAnd [any_at_h, next_at_h_plus]) (tn_prefix_equal pos (pos + 1) (h + 1))

/-- φ10, `tn_stack_preservation_decapsulation`: if some node is at `(pos,h)` and
some node at `(pos+1,h-1)` (only when `h-1 ≥ 0`), cells `0 … h-1` are
preserved. -/
def tn_stack_preservation_decapsulation (num_nodes : Nat) (pos h : Int) : Formula :=
  let any_at_h := tn_any_node_at num_nodes pos h
  let next_at_h_minus := if 0 ≤ h - 1
    then tn_any_node_at num_nodes (pos + 1) (h - 1) else Formula.ff
  Formula.implies (mkAnd [any_at_h, next_at_h_minus]) (tn_prefix_equal pos (pos + 1) h)

/-- The index of the unconditional final store
`constraints[num_pos - 1] = Z3_mk_true(ctx)` of `tn_stack_preservation_logic`,
where `num_pos = length`. -/
def tn_preservation_final_store_index (length : Nat) : Int := (length : Int) - 1

/-- The number of `Z3_ast` slots allocated for `constraints` in
`tn_stack_preservation_logic` (`malloc(num_pos * sizeof(Z3_ast))`,
`num_pos = length`). -/
def tn_preservation_alloc_size (length : Nat) : Int := (length : Int)

/-- Whether the final store `constraints[num_pos - 1]` of
`tn_stack_preservation_logic` is inside the `num_pos`-slot allocation. -/
def tn_preservation_final_store_in_bounds (length : Nat) : Bool :=
  decide (0 ≤ tn_preservation_final_store_index length ∧
          tn_preservation_final_store_index length < tn_preservation_alloc_size length)

/-- φ8∧φ9∧φ10, `tn_stack_preservation_logic`: `num_pos = length`; the loop
fills `constraints[pos]` for `pos ∈ [0, num_pos-1)` with the conjunction over
all heights of the three preservation rules, and then stores
`Z3_mk_true` at `constraints[num_pos - 1]`.  For `length = 0` that last store
is out of bounds (`constraints[-1]`, see `tn_preservation_final_store_in_bounds`);
we model only the in-bounds stores, so the `Z3_mk_true` slot is appended
exactly when `num_pos ≥ 1`. -/
def tn_stack_preservation_logic (network : TunnelNetwork) (length : Nat) : Formula :=
  let stack_size := get_stack_size length
  let num_nodes := network.numNodes
  let num_pos := length
  mkAnd (((List.range (num_pos - 1)).map (fun (pos : Nat) =>
      mkAnd ((intRange stack_size).map (fun h =>
        let c1 := tn_stack_preservation_transmission num_nodes ((pos : Nat) : Int) h
        let c2 := tn_stack_preservation_encapsulation num_nodes stack_size ((pos : Nat) : Int) h
        let c3 := tn_stack_preservation_decapsulation num_nodes ((pos : Nat) : Int) h
        mkAnd [c1, c2, c3]))))
    ++ (if 1 ≤ num_pos then [Formula.tt] else []))

/-- The `valid_next` array filled by `tn_edge_node_constraint`: for every
successor `v` of `u`, the variables `x_{v,pos+1,h}`, then `x_{v,pos+1,h+1}`
when `h+1 < H`, then `x_{v,pos+1,h-1}` when `h-1 ≥ 0`. -/
def tn_edge_valid_next (network : TunnelNetwork) (length : Nat) (pos h u : Int) : List Formula :=
  let stack_size := get_stack_size length
  (intRange network.numNodes).flatMap (fun v =>
    if network.isEdge u v then
      [tn_path_variable v (pos + 1) h]
      ++ (if h + 1 < (stack_size : Int) then [tn_path_variable v (pos + 1) (h + 1)] else [])
      ++ (if 0 ≤ h - 1 then [tn_path_variable v (pos + 1) (h - 1)] else [])
    else [])

/-- `tn_edge_node_constraint`: if `x_{u,pos,h}` then at `pos+1` some successor
`v` of `u` is live at height `h`, `h+1` (when `h+1 < H`) or `h-1` (when
`h-1 ≥ 0`); if `u` has no successor (`v_count == 0`) the state is
forbidden. -/
def tn_edge_node_constraint (network : TunnelNetwork) (length : Nat) (pos h u : Int) : Formula :=
  let current := tn_path_variable u pos h
  let valid_next := tn_edge_valid_next network length pos h u
  if valid_next.isEmpty then Formula.not current
  else Formula.implies current (mkOr valid_next)

/-- `tn_edge_height_constraint`: conjunction of `tn_edge_node_constraint` over
all nodes. -/
def tn_edge_height_constraint (network : TunnelNetwork) (length : Nat) (pos h : Int) : Formula :=
  mkAnd ((intRange network.numNodes).map (fun u =>
    tn_edge_node_constraint network length pos h u))

/-- `tn_edge_pos_constraint`: conjunction of `tn_edge_height_constraint` over
all stack heights. -/
def tn_edge_pos_constraint (network : TunnelNetwork) (length : Nat) (pos : Int) : Formula :=
  mkAnd ((intRange (get_stack_size length)).map (fun h =>
    tn_edge_height_constraint network length pos h))

/-- φ11, `tn_edge_constraints`: conjunction of `tn_edge_pos_constraint` over
all positions `pos ∈ [0,length)`. -/
def tn_edge_constraints (network : TunnelNetwork) (length : Nat) : Formula :=
  mkAnd ((intRange length).map (fun pos =>
    tn_edge_pos_constraint network length pos))

/-- `tn_reduction`: the conjunction of the nine top-level parts, exactly as
assembled by the C function (φ3, φ4, φ5 and φ7 over `pos ∈ [0,length)`, φ6 over
`pos ∈ [0,length]`).  No validation of `length`, `initial` or `final` is
performed. -/
def tn_reduction (network : TunnelNetwork) (length : Nat) : Formula :=
  let f1 := tn_exist_uniqueOp_uniqueHeight network length
  let f2 := tn_init_final_stack network length
  let f3 := mkAnd ((intRange length).map (fun pos =>
    tn_transition_stack_height network length pos))
  let f4 := mkAnd ((intRange length).map (fun pos =>
    tn_encapsulation_stack_height network length pos))
  let f5 := mkAnd ((intRange length).map (fun pos =>
    tn_decapsulation_stack_height network length pos))
  let f6 := mkAnd ((intRange (length + 1)).map (fun pos =>
    tn_stack_content_coherence length pos))
  let f7 := mkAnd ((intRange length).map (fun pos =>
    tn_operation_feasibility network length pos))
  let f_preservation := tn_stack_preservation_logic network length
  let f_edges := tn_edge_constraints network length
  mkAnd [f1, f2, f3, f4, f5, f6, f7, f_preservation, f_edges]

/-- A step of the decoded path (`tn_step_create(action, src, tgt)`). -/
structure tn_step where
  action : TnAction
  src : Int
  tgt : Int
deriving DecidableEq, Repr

/-- The inner scan of `tn_get_path_from_model` at one position: the C loops
`for n` (outer) and `for height` (inner) overwrite `(src, src_height)` at every
hit, so the result is the last live pair in scan order, or `(-1, -1)` if no
`x_{n,p,height}` is true. -/
def tn_scan_live (v : Var → Bool) (num_nodes stack_size : Nat) (p : Int) : Int × Int :=
  ((intRange num_nodes).flatMap (fun n =>
    (intRange stack_size).map (fun height => (n, height)))).foldl
    (fun acc nh => if v (Var.x nh.1 p nh.2) then nh else acc) (-1, -1)

/-- The pop branch of the decoder (`src_height == tgt_height + 1`): the action
as a function of `y4` at `(pos, src_height)` (old top is 4) and `y4` at
`(pos+1, tgt_height)` (revealed top is 4). -/
def decoderPopAction (old_top_is_4 new_top_is_4 : Bool) : TnAction :=
  if old_top_is_4 then
    (if new_top_is_4 then TnAction.pop_4_4 else TnAction.pop_6_4)
  else
    (if new_top_is_4 then TnAction.pop_4_6 else TnAction.pop_6_6)

/-- One iteration of the decoder loop of `tn_get_path_from_model`: scan the
live pairs at `pos` and `pos+1`, then pick the action from the height
difference and the `y4` bits (`action` is initialised to `0 = transmit_4`
and is left there when no branch matches). -/
def tn_decode_step (v : Var → Bool) (network : TunnelNetwork) (bound : Nat) (pos : Int) : tn_step :=
  let num_nodes := network.numNodes
  let stack_size := get_stack_size bound
  let s := tn_scan_live v num_nodes stack_size pos
  let t := tn_scan_live v num_nodes stack_size (pos + 1)
  let src := s.1
  let src_height := s.2
  let tgt := t.1
  let tgt_height := t.2
  let action :=
    if src_height == tgt_height then
      (if v (Var.y4 pos src_height) then TnAction.transmit_4 else TnAction.transmit_6)
    else if src_height == tgt_height - 1 then
      (if v (Var.y4 pos src_height) then
        (if v (Var.y4 (pos + 1) tgt_height) then TnAction.push_4_4 else TnAction.push_4_6)
       else if v (Var.y4 (pos + 1) tgt_height) then TnAction.push_6_4
       else TnAction.push_6_6)
    else if src_height == tgt_height + 1 then
      decoderPopAction (v (Var.y4 pos src_height)) (v (Var.y4 (pos + 1) tgt_height))
    else TnAction.transmit_4
  { action := action, src := src, tgt := tgt }

/-- `tn_get_path_from_model`: one decoded step per `pos ∈ [0,bound)`.  The C
function is total: it always writes a step for every position and signals
nothing. -/
def tn_get_path_from_model (v : Var → Bool) (network : TunnelNetwork) (bound : Nat) : List tn_step :=
  (intRange bound).map (fun pos => tn_decode_step v network bound pos)

/-!
Specification-side apparatus for the claims: the well-formed-path predicate
(the replay discipline of the soundness/completeness properties) and the
assignment that encodes a path back into the reduction's variables.
-/

/-- The protocol an action requires on the current top of the stack: the
input-top-4 actions are `{transmit_4, push_4_4, push_4_6, pop_4_4, pop_6_4}`
and the input-top-6 actions `{transmit_6, push_6_4, push_6_6, pop_4_6,
pop_6_6}` (`pop_X_Y` discards old top `Y` to expose below `X`). -/
def actionInputTop : TnAction → Prot
  | .transmit_4 => .p4
  | .transmit_6 => .p6
  | .push_4_4 => .p4
  | .push_4_6 => .p4
  | .push_6_4 => .p6
  | .push_6_6 => .p6
  | .pop_4_4 => .p4
  | .pop_4_6 => .p6
  | .pop_6_4 => .p4
  | .pop_6_6 => .p6

/-- For a push `push_X_Y`, the protocol `Y` of the newly pushed cell. -/
def pushNewTop : TnAction → Option Prot
  | .push_4_4 => some .p4
  | .push_4_6 => some .p6
  | .push_6_4 => some .p4
  | .push_6_6 => some .p6
  | _ => none

/-- For a pop `pop_X_Y`, the protocol `X` of the cell revealed below. -/
def popBelow : TnAction → Option Prot
  | .pop_4_4 => some .p4
  | .pop_4_6 => some .p4
  | .pop_6_4 => some .p6
  | .pop_6_6 => some .p6
  | _ => none

/-- The stack after an action: push appends the new top, pop discards the
top, transmission leaves the stack unchanged.  Stacks are bottom-first lists,
the cell at height `h` is index `h`. -/
def nextStack (a : TnAction) (s : List Prot) : List Prot :=
  match pushNewTop a with
  | some y => s ++ [y]
  | none =>
    match popBelow a with
    | some _ => s.dropLast
    | none => s

/-- One well-formed step from node `u` with stack `s`, with height bound `H`:
the step starts at `u`, its target is a node of the network, the edge is in
the network, the action is in the source's capability set, the action's input
protocol matches the actual top of the stack (cell `length - 1`), a push keeps
the stack within `H` cells, and a pop has at least two cells and matches the
cell below the top (cell `length - 2`). -/
def stepOk (network : TunnelNetwork) (H : Nat) (u : Int) (s : List Prot) (st : tn_step) : Bool :=
  (st.src == u) &&
  (0 ≤ st.tgt && st.tgt < (network.numNodes : Int)) &&
  network.isEdge st.src st.tgt &&
  network.hasAction st.src st.action &&
  (decide (1 ≤ s.length) && (s.getD (s.length - 1) Prot.p4 == actionInputTop st.action)) &&
  (match pushNewTop st.action with
   | some _ => decide (s.length + 1 ≤ H)
   | none => true) &&
  (match popBelow st.action with
   | some x => decide (2 ≤ s.length) && (s.getD (s.length - 2) Prot.p4 == x)
   | none => true)

/-- Replay of a step list from node `u` and stack `s`: every step is
well-formed and the replay ends at the final node with stack `[4]`. -/
def wfFrom (network : TunnelNetwork) (H : Nat) : Int → List Prot → List tn_step → Bool
  | u, s, [] => (u == network.final) && (s == [Prot.p4])
  | u, s, st :: rest =>
    stepOk network H u s st && wfFrom network H st.tgt (nextStack st.action s) rest

/-- A well-formed path of length `k` in the network: `k` steps, starting from
the initial node (a node of the network) with stack `[4]`, with height bound
`H(k) = get_stack_size k`. -/
def wfPath (network : TunnelNetwork) (k : Nat) (path : List tn_step) : Bool :=
  (path.length == k) &&
  (0 ≤ network.initial && network.initial < (network.numNodes : Int)) &&
  wfFrom network (get_stack_size k) network.initial [Prot.p4] path

/-- The default step used for out-of-range `getD` accesses below. -/
def dfltStep : tn_step := { action := TnAction.transmit_4, src := -1, tgt := -1 }

/-- The node visited at position `p` of a path started at `u`. -/
def nodeFrom (u : Int) (path : List tn_step) : Nat → Int
  | 0 => u
  | p + 1 => (path.getD p dfltStep).tgt

/-- The stack at position `p` of a path started with stack `s`. -/
def stackFrom (s : List Prot) (path : List tn_step) : Nat → List Prot
  | 0 => s
  | p + 1 => nextStack (path.getD p dfltStep).action (stackFrom s path p)

/-- The node at position `p` of a path of the network (position 0 is the
initial node). -/
def nodeAt (network : TunnelNetwork) (path : List tn_step) (p : Nat) : Int :=
  nodeFrom network.initial path p

/-- The stack at position `p` of a path (position 0 is the stack `[4]`). -/
def stackAt (path : List tn_step) (p : Nat) : List Prot :=
  stackFrom [Prot.p4] path p

/-- The `x` component of the path encoding: `x_{u,p,h}` is true iff `p` is a
position of the path, `u` is the node visited at `p` and `h` is the live
height there (the top index of the stack at `p`). -/
def encX (network : TunnelNetwork) (k : Nat) (path : List tn_step) (u p h : Int) : Bool :=
  (0 ≤ p) && (p ≤ (k : Int)) &&
  (u == nodeAt network path p.toNat) &&
  (h == ((stackAt path p.toNat).length : Int) - 1)

/-- The `y6` component of the path encoding: `y6_{p,h}` is true iff cell `h`
of the stack at position `p` exists and holds protocol 6. -/
def encY6 (k : Nat) (path : List tn_step) (p h : Int) : Bool :=
  (0 ≤ p) && (p ≤ (k : Int)) && (0 ≤ h) &&
  (h < ((stackAt path p.toNat).length : Int)) &&
  ((stackAt path p.toNat).getD h.toNat Prot.p4 == Prot.p6)

/-- The `y4` component of the literal path encoding of the claim: `y4_{p,h}`
is true iff cell `h` of the stack at position `p` exists and holds
protocol 4 (cells strictly above the live height have both `y4` and `y6`
false). -/
def encY4 (k : Nat) (path : List tn_step) (p h : Int) : Bool :=
  (0 ≤ p) && (p ≤ (k : Int)) && (0 ≤ h) &&
  (h < ((stackAt path p.toNat).length : Int)) &&
  ((stackAt path p.toNat).getD h.toNat Prot.p4 == Prot.p4)

/-- The `y4` component of the padded path encoding: as `encY4` on the cells of
the stack, and true on every cell strictly above the live height. -/
def encY4pad (k : Nat) (path : List tn_step) (p h : Int) : Bool :=
  (0 ≤ p) && (p ≤ (k : Int)) && (0 ≤ h) &&
  (if h < ((stackAt path p.toNat).length : Int)
   then (stackAt path p.toNat).getD h.toNat Prot.p4 == Prot.p4
   else true)

/-- The assignment of claim C3, literally: `x` variables from the path's
configurations, `y4`/`y6` variables from its stack contents (nothing above
the live height). -/
def encodeModel (network : TunnelNetwork) (k : Nat) (path : List tn_step) : Var → Bool
  | .x u p h => encX network k path u p h
  | .y4 p h => encY4 k path p h
  | .y6 p h => encY6 k path p h

/-- The padded path encoding: as `encodeModel`, except that every cell
strictly above the live height carries protocol 4 (`y4` true, `y6` false). -/
def encodeModelPadded (network : TunnelNetwork) (k : Nat) (path : List tn_step) : Var → Bool
  | .x u p h => encX network k path u p h
  | .y4 p h => encY4pad k path p h
  | .y6 p h => encY6 k path p h

/-!
Concrete networks and models used to settle the claims.
-/

/-- A three-node line `0 → 1 → 2` where node 0 may `transmit_4` and node 1 may
`transmit_6`. -/
def net1 : TunnelNetwork where
  numNodes := 3
  initial := 0
  final := 2
  isEdge := fun u v => (u == 0 && v == 1) || (u == 1 && v == 2)
  hasAction := fun u a =>
    (u == 0 && a == TnAction.transmit_4) || (u == 1 && a == TnAction.transmit_6)

/-- A satisfying model of `tn_reduction net1 2`: the path variables follow
`0,1,2` at height 0, the cell `(1,0)` holds protocol 6, every other in-range
cell holds protocol 4. -/
def m1 : Var → Bool
  | .x n p h =>
    (n == 0 && p == 0 && h == 0) || (n == 1 && p == 1 && h == 0) ||
    (n == 2 && p == 2 && h == 0)
  | .y4 p h =>
    (p == 0 && h == 0) || (p == 2 && h == 0) ||
    (p == 0 && h == 1) || (p == 1 && h == 1) || (p == 2 && h == 1)
  | .y6 p h => p == 1 && h == 0

/-- A four-node line `0 → 1 → 2 → 3` where node 0 may `transmit_4`, node 1 may
`push_6_4` and node 2 may `pop_6_4`. -/
def net2 : TunnelNetwork where
  numNodes := 4
  initial := 0
  final := 3
  isEdge := fun u v =>
    (u == 0 && v == 1) || (u == 1 && v == 2) || (u == 2 && v == 3)
  hasAction := fun u a =>
    (u == 0 && a == TnAction.transmit_4) || (u == 1 && a == TnAction.push_6_4) ||
    (u == 2 && a == TnAction.pop_6_4)

/-- A satisfying model of `tn_reduction net2 3`: heights `0,0,1,0`; the
transmission `0 → 1` changes cell 0 from protocol 4 to 6 (no clause constrains
the top cell of a transmission), the push `1 → 2` copies it, and the final
decapsulation `2 → 3` has no preservation clause, so cell 0 flips back to 4. -/
def m2 : Var → Bool
  | .x n p h =>
    (n == 0 && p == 0 && h == 0) || (n == 1 && p == 1 && h == 0) ||
    (n == 2 && p == 2 && h == 1) || (n == 3 && p == 3 && h == 0)
  | .y4 p h =>
    (p == 0 && h == 0) || (p == 0 && h == 1) || (p == 1 && h == 1) ||
    (p == 2 && h == 1) || (p == 3 && h == 0) || (p == 3 && h == 1)
  | .y6 p h => (p == 1 && h == 0) || (p == 2 && h == 0)

/-- A three-node line `0 → 1 → 2` where nodes 0 and 1 may `transmit_4`. -/
def net3 : TunnelNetwork where
  numNodes := 3
  initial := 0
  final := 2
  isEdge := fun u v => (u == 0 && v == 1) || (u == 1 && v == 2)
  hasAction := fun u a =>
    (u == 0 && a == TnAction.transmit_4) || (u == 1 && a == TnAction.transmit_4)

/-- The well-formed path of two transmissions through `net3`. -/
def path3 : List tn_step :=
  [{ action := TnAction.transmit_4, src := 0, tgt := 1 },
   { action := TnAction.transmit_4, src := 1, tgt := 2 }]

/-- The two-node network of scenario S1: edge `0 → 1`, node 0 may
`transmit_4`. -/
def netS1 : TunnelNetwork where
  numNodes := 2
  initial := 0
  final := 1
  isEdge := fun u v => u == 0 && v == 1
  hasAction := fun u a => u == 0 && a == TnAction.transmit_4

/-- The canonical satisfying model of `tn_reduction netS1 1`. -/
def w9 : Var → Bool
  | .x n p h => (n == 0 && p == 0 && h == 0) || (n == 1 && p == 1 && h == 0)
  | .y4 p h => (p == 0 && h == 0) || (p == 1 && h == 0)
  | .y6 _ _ => false

/-- A push/pop round-trip network: `0 → 1 → 2`, node 0 may `push_4_6`, node 1
may `pop_4_6` (the action the "below,top" convention of φ5 demands for
discarding a 6 to reveal a 4). -/
def netS2 : TunnelNetwork where
  numNodes := 3
  initial := 0
  final := 2
  isEdge := fun u v => (u == 0 && v == 1) || (u == 1 && v == 2)
  hasAction := fun u a =>
    (u == 0 && a == TnAction.push_4_6) || (u == 1 && a == TnAction.pop_4_6)

/-- A satisfying model of `tn_reduction netS2 2`: heights `0,1,0`, stack
`[4]`, `[4,6]`, `[4]`, above-top cells padded with protocol 4. -/
def w5 : Var → Bool
  | .x n p h =>
    (n == 0 && p == 0 && h == 0) || (n == 1 && p == 1 && h == 1) ||
    (n == 2 && p == 2 && h == 0)
  | .y4 p h =>
    (p == 0 && h == 0) || (p == 0 && h == 1) || (p == 1 && h == 0) ||
    (p == 2 && h == 0) || (p == 2 && h == 1)
  | .y6 p h => p == 1 && h == 1

/-- A corrupt model for `netS1`, `bound = 1`: two distinct `x` variables are
true at position 0. -/
def m6 : Var → Bool
  | .x n p h =>
    (n == 0 && p == 0 && h == 0) || (n == 1 && p == 0 && h == 0) ||
    (n == 1 && p == 1 && h == 0)
  | .y4 _ _ => false
  | .y6 _ _ => false

/-- A one-node network whose recorded initial node `5` is not a node of the
network (`numNodes = 1`). -/
def badNet : TunnelNetwork where
  numNodes := 1
  initial := 5
  final := 0
  isEdge := fun _ _ => false
  hasAction := fun _ _ => false

/-!
Closed results: the concrete counterexamples and failing inputs.
-/

/-- C1: refuted on the code — `m1` satisfies `tn_reduction net1 2`, the decoded
path has the claimed length 2, but replaying it from the stack `[4]` is not
well-formed: the clauses never tie the content of a transmission's top cell at
`pos+1` to its content at `pos`, so the model carries protocol 6 at `(1,0)`
and the decoder emits `transmit_6` at step 1 although the replayed top is 4. -/
theorem tn_soundness_fails_on_m1 :
    Formula.eval m1 (tn_reduction net1 2) = true ∧
    tn_get_path_from_model m1 net1 2 =
      [{ action := TnAction.transmit_4, src := 0, tgt := 1 },
       { action := TnAction.transmit_6, src := 1, tgt := 2 }] ∧
    wfPath net1 2 (tn_get_path_from_model m1 net1 2) = false := by
  exact ⟨by decide, by decide, by decide⟩

/-- C2: refuted on the code — `tn_stack_preservation_logic` loops only over
`pos ∈ [0, length-1)`, so the last transition has no preservation clause:
`m2` satisfies `tn_reduction net2 3`, its live pairs at positions 2 and 3 are
`(2,1)` and `(3,0)` (a decapsulation at `p = 2`), yet cell 0 holds protocol 6
at position 2 and protocol 4 at position 3. -/
theorem tn_preservation_fails_on_m2 :
    Formula.eval m2 (tn_reduction net2 3) = true ∧
    m2 (Var.x 2 2 1) = true ∧ m2 (Var.x 3 3 0) = true ∧
    m2 (Var.y6 2 0) = true ∧ m2 (Var.y4 2 0) = false ∧
    m2 (Var.y6 3 0) = false ∧ m2 (Var.y4 3 0) = true := by
  exact ⟨by decide, by decide, by decide, by decide, by decide, by decide, by decide⟩

/-- C3, counterexample: the literal assignment of the claim — `y4`/`y6` set
from the path's stack contents, hence both false on every cell strictly above
the live height — does not satisfy the formula, because φ6 constrains every
cell unconditionally: `path3` is a well-formed path of `net3` of length 2, but
`encodeModel` falsifies `tn_reduction net3 2`. -/
theorem tn_literal_encoding_fails_on_path3 :
    wfPath net3 2 path3 = true ∧
    Formula.eval (encodeModel net3 2 path3) (tn_reduction net3 2) = false := by
  exact ⟨by decide, by decide⟩

/-- C4, counterexample: `tn_stack_content_coherence` carries no hypothesis
about a live node — under the all-false valuation no `x` variable is true at
any `(pos, height)`, yet the φ6 fragment for `length = 2`, `pos = 0` already
evaluates to false. -/
theorem tn_phi6_unconditional_on_empty_model :
    Formula.eval (fun _ => false) (tn_stack_content_coherence 2 0) = false := by
  decide

/-- C5, counterexample: on `m2` (a satisfying model of `tn_reduction net2 3`),
the decoder's final step is `pop_4_4` — it reads the revealed top from
`y4` at `(3,0)` — while φ5 required `pop_6_4` for that transition (old top 4
at `(2,1)`, cell below 6 at `(2,0)`); indeed `pop_4_4` is not even in node 2's
capability set. -/
theorem tn_phi5_decoder_disagree_on_m2 :
    Formula.eval m2 (tn_reduction net2 3) = true ∧
    (tn_get_path_from_model m2 net2 3).getD 2 dfltStep =
      { action := TnAction.pop_4_4, src := 2, tgt := 3 } ∧
    phi5RequiredPopAction (m2 (Var.y4 2 1)) (m2 (Var.y4 2 0)) = TnAction.pop_6_4 ∧
    net2.hasAction 2 TnAction.pop_4_4 = false := by
  exact ⟨by decide, by decide, by decide, by decide⟩

/-- C6, counterexample: `m6` has two `x` variables true at position 0, yet
`tn_get_path_from_model` signals nothing — it silently emits a step built from
the last live pair in scan order. -/
theorem tn_decoder_silent_on_corrupt_m6 :
    m6 (Var.x 0 0 0) = true ∧ m6 (Var.x 1 0 0) = true ∧
    tn_get_path_from_model m6 netS1 1 =
      [{ action := TnAction.transmit_6, src := 1, tgt := 1 }] := by
  exact ⟨by decide, by decide, by decide⟩

/-- C7: at `length = 0` the unconditional store
`constraints[num_pos - 1] = Z3_mk_true(ctx)` of `tn_stack_preservation_logic`
writes to index `-1` of a 0-slot allocation: the index is out of bounds, while
at `length = 1` it is in bounds. -/
theorem tn_preservation_store_oob_at_zero :
    tn_preservation_final_store_in_bounds 0 = false ∧
    tn_preservation_final_store_index 0 = -1 ∧
    tn_preservation_final_store_in_bounds 1 = true := by
  exact ⟨by decide, by decide, by decide⟩

/-- C8, counterexample: `badNet` records initial node 5 in a network whose
only node is 0, yet `tn_reduction` performs no validation — it builds and
returns the formula, whose variables include `x_{5,0,0}` for the out-of-range
source. -/
theorem tn_reduction_builds_for_bad_source :
    ¬ (badNet.initial < (badNet.numNodes : Int)) ∧
    Var.x 5 0 0 ∈ (tn_reduction badNet 1).vars := by
  exact ⟨by decide, by decide⟩

/-!
Evaluation and membership infrastructure.
-/

theorem eval_mkAnd (v : Var → Bool) (l : List Formula) :
    (mkAnd l).eval v = l.all (fun f => f.eval v) := by
  induction l with
  | nil => rfl
  | cons a t ih => simp [mkAnd, Formula.eval, List.all_cons] at ih ⊢; rw [ih]

theorem eval_mkOr (v : Var → Bool) (l : List Formula) :
    (mkOr l).eval v = l.any (fun f => f.eval v) := by
  induction l with
  | nil => rfl
  | cons a t ih => simp [mkOr, Formula.eval, List.any_cons] at ih ⊢; rw [ih]

theorem eval_mkAnd_true_iff {v : Var → Bool} {l : List Formula} :
    (mkAnd l).eval v = true ↔ ∀ f ∈ l, f.eval v = true := by
  rw [eval_mkAnd, List.all_eq_true]

theorem eval_mkOr_true_iff {v : Var → Bool} {l : List Formula} :
    (mkOr l).eval v = true ↔ ∃ f ∈ l, f.eval v = true := by
  rw [eval_mkOr, List.any_eq_true]

theorem vars_mkAnd (l : List Formula) :
    (mkAnd l).vars = l.flatMap Formula.vars := by
  induction l with
  | nil => rfl
  | cons a t ih => simp [mkAnd, Formula.vars, List.flatMap_cons] at ih ⊢; rw [ih]

theorem mem_intRange {n : Nat} {a : Int} :
    a ∈ intRange n ↔ 0 ≤ a ∧ a < (n : Int) := by
  unfold intRange
  rw [List.mem_map]
  constructor
  · rintro ⟨i, hi, rfl⟩
    rw [List.mem_range] at hi
    omega
  · rintro ⟨h0, hn⟩
    refine ⟨a.toNat, ?_, ?_⟩
    · rw [List.mem_range]; omega
    · omega

theorem intRange_nodup (n : Nat) : (intRange n).Nodup :=
  List.Nodup.map (fun x y h => by omega) (List.nodup_range n)

theorem allPairs_cons {α : Type} (a : α) (t : List α) :
    allPairs (a :: t) = t.map (fun b => (a, b)) ++ allPairs t := rfl

theorem pair_mem_allPairs {α : Type} {l : List α} {a b : α}
    (ha : a ∈ l) (hb : b ∈ l) (hne : a ≠ b) :
    (a, b) ∈ allPairs l ∨ (b, a) ∈ allPairs l := by
  induction l with
  | nil => cases ha
  | cons c t ih =>
    rcases List.mem_cons.mp ha with rfl | ha'
    · rcases List.mem_cons.mp hb with rfl | hb'
      · exact absurd rfl hne
      · refine Or.inl ?_
        rw [allPairs_cons]
        exact List.mem_append_left _ (List.mem_map.mpr ⟨b, hb', rfl⟩)
    · rcases List.mem_cons.mp hb with rfl | hb'
      · refine Or.inr ?_
        rw [allPairs_cons]
        exact List.mem_append_left _ (List.mem_map.mpr ⟨a, ha', rfl⟩)
      · rcases ih ha' hb' with h | h
        · exact Or.inl (by rw [allPairs_cons]; exact List.mem_append_right _ h)
        · exact Or.inr (by rw [allPairs_cons]; exact List.mem_append_right _ h)

theorem allPairs_ne_of_nodup {α : Type} {l : List α} (h : l.Nodup) :
    ∀ p ∈ allPairs l, p.1 ≠ p.2 := by
  induction l with
  | nil => intro p hp; cases hp
  | cons c t ih =>
    intro p hp
    rw [allPairs_cons] at hp
    rcases List.mem_append.mp hp with hp' | hp'
    · rcases List.mem_map.mp hp' with ⟨b, hb, rfl⟩
      intro hcb
      exact (List.nodup_cons.mp h).1
        (show c ∈ t by rw [show c = b from hcb]; exact hb)
    · exact ih (List.nodup_cons.mp h).2 p hp'

/-!
The easier universal theorems.
-/

/-- C6, amended: `tn_get_path_from_model` performs no corruption check at all —
for every model, including corrupt ones, it is total and emits exactly one
step per position (`bound` steps), resolving multiplicity silently by the last
live pair in scan order and using `(-1, -1)` when no pair is live. -/
theorem tn_decoder_total (v : Var → Bool) (network : TunnelNetwork) (bound : Nat) :
    (tn_get_path_from_model v network bound).length = bound := by
  unfold tn_get_path_from_model intRange
  rw [List.length_map, List.length_map, List.length_range]

/-- C8, amended: `tn_reduction` validates nothing — for every network (even
one whose recorded source is not a node of the network, as in
`tn_reduction_builds_for_bad_source`) and every length, it builds and returns
the formula, whose variables always include `x_{source,0,0}` from the φ2
boundary fragment. -/
theorem tn_reduction_always_builds (network : TunnelNetwork) (k : Nat) :
    Var.x network.initial 0 0 ∈ (tn_reduction network k).vars := by
  simp [tn_reduction, vars_mkAnd, List.mem_flatMap, tn_init_final_stack, mkAnd,
    Formula.vars, tn_path_variable, tn_4_variable]

/-- C10: the decoder never consults a `y6` variable — it reads only `x`
variables (in the scans) and `y4` variables (in the action table, treating a
false `y4` as protocol 6), so any two models that agree on all `x` and `y4`
variables decode to the same path, whatever their `y6` values. -/
theorem tn_decoder_ignores_y6 (network : TunnelNetwork) (bound : Nat)
    (v1 v2 : Var → Bool)
    (hx : ∀ n p h : Int, v1 (Var.x n p h) = v2 (Var.x n p h))
    (hy4 : ∀ p h : Int, v1 (Var.y4 p h) = v2 (Var.y4 p h)) :
    tn_get_path_from_model v1 network bound = tn_get_path_from_model v2 network bound := by
  unfold tn_get_path_from_model tn_decode_step tn_scan_live
  simp only [hx, hy4]

theorem eval_mkAnd_map_true_iff {v : Var → Bool} {α : Type} {l : List α} {g : α → Formula} :
    (mkAnd (l.map g)).eval v = true ↔ ∀ a ∈ l, (g a).eval v = true := by
  rw [eval_mkAnd_true_iff]
  constructor
  · intro H a ha
    exact H _ (List.mem_map.mpr ⟨a, ha, rfl⟩)
  · intro H f hf
    rcases List.mem_map.mp hf with ⟨a, ha, rfl⟩
    exact H a ha

theorem eval_mkOr_map_true_iff {v : Var → Bool} {α : Type} {l : List α} {g : α → Formula} :
    (mkOr (l.map g)).eval v = true ↔ ∃ a ∈ l, (g a).eval v = true := by
  rw [eval_mkOr_true_iff]
  constructor
  · intro H
    rcases H with ⟨f, hf, he⟩
    rcases List.mem_map.mp hf with ⟨a, ha, rfl⟩
    exact ⟨a, ha, he⟩
  · intro H
    rcases H with ⟨a, ha, he⟩
    exact ⟨g a, List.mem_map.mpr ⟨a, ha, rfl⟩, he⟩

theorem eval_boolFormula (v : Var → Bool) (b : Bool) :
    Formula.eval v (if b then Formula.tt else Formula.ff) = b := by
  cases b <;> rfl

theorem tn_reduction_parts {network : TunnelNetwork} {k : Nat} {v : Var → Bool}
    (hsat : (tn_reduction network k).eval v = true) :
    (tn_exist_uniqueOp_uniqueHeight network k).eval v = true ∧
    (tn_init_final_stack network k).eval v = true ∧
    (∀ pos ∈ intRange k, (tn_transition_stack_height network k pos).eval v = true) ∧
    (∀ pos ∈ intRange k, (tn_encapsulation_stack_height network k pos).eval v = true) ∧
    (∀ pos ∈ intRange k, (tn_decapsulation_stack_height network k pos).eval v = true) ∧
    (∀ pos ∈ intRange (k + 1), (tn_stack_content_coherence k pos).eval v = true) ∧
    (∀ pos ∈ intRange k, (tn_operation_feasibility network k pos).eval v = true) ∧
    (tn_stack_preservation_logic network k).eval v = true ∧
    (tn_edge_constraints network k).eval v = true := by
  unfold tn_reduction at hsat
  rw [eval_mkAnd_true_iff] at hsat
  simp only [List.mem_cons, List.not_mem_nil, or_false, forall_eq_or_imp, forall_eq] at hsat
  obtain ⟨h1, h2, h3, h4, h5, h6, h7, h8, h9⟩ := hsat
  refine ⟨h1, h2, ?_, ?_, ?_, ?_, ?_, h8, h9⟩
  · exact eval_mkAnd_map_true_iff.mp h3
  · exact eval_mkAnd_map_true_iff.mp h4
  · exact eval_mkAnd_map_true_iff.mp h5
  · exact eval_mkAnd_map_true_iff.mp h6
  · exact eval_mkAnd_map_true_iff.mp h7

/-- C4, amended: φ6 constrains every stack cell unconditionally — in every
satisfying model of `tn_reduction`, every cell `(p, h)` with `p ∈ [0, k]` and
`h ∈ [0, H)`, including the cells strictly above the active height, carries
exactly one of the two protocols; no satisfying model leaves both `y4` and
`y6` false anywhere in range. -/
theorem tn_cells_always_typed (network : TunnelNetwork) (k : Nat) (v : Var → Bool)
    (p h : Int)
    (hp0 : 0 ≤ p) (hpk : p ≤ (k : Int))
    (hh0 : 0 ≤ h) (hhH : h < (get_stack_size k : Int))
    (hsat : (tn_reduction network k).eval v = true) :
    v (Var.y4 p h) ≠ v (Var.y6 p h) := by
  obtain ⟨-, -, -, -, -, h6, -, -, -⟩ := tn_reduction_parts hsat
  have h6p := h6 p (mem_intRange.mpr ⟨hp0, by omega⟩)
  unfold tn_stack_content_coherence at h6p
  rw [eval_mkAnd_map_true_iff] at h6p
  have hx := h6p h (mem_intRange.mpr ⟨hh0, hhH⟩)
  simpa [Formula.eval, tn_4_variable, tn_6_variable] using hx

/-- Witness for `tn_cells_always_typed` on the S1 model. -/
theorem tn_cells_always_typed_witness :
    w9 (Var.y4 0 0) ≠ w9 (Var.y6 0 0) :=
  tn_cells_always_typed netS1 1 w9 0 0 (by decide) (by decide) (by decide) (by decide)
    (by decide)

theorem phi1_at_most_one {network : TunnelNetwork} {k : Nat} {v : Var → Bool}
    (h1 : (tn_exist_uniqueOp_uniqueHeight network k).eval v = true)
    {i u h u' h' : Int}
    (hi : 0 ≤ i ∧ i ≤ (k : Int))
    (hu : 0 ≤ u ∧ u < (network.numNodes : Int))
    (hh : 0 ≤ h ∧ h < (get_stack_size k : Int))
    (hu' : 0 ≤ u' ∧ u' < (network.numNodes : Int))
    (hh' : 0 ≤ h' ∧ h' < (get_stack_size k : Int))
    (ht : v (Var.x u i h) = true) (ht' : v (Var.x u' i h') = true) :
    u = u' ∧ h = h' := by
  by_cases heq : u = u' ∧ h = h'
  · exact heq
  · exfalso
    unfold tn_exist_uniqueOp_uniqueHeight at h1
    rw [eval_mkAnd_map_true_iff] at h1
    have hpos := h1 i (mem_intRange.mpr ⟨hi.1, by omega⟩)
    rw [eval_mkAnd_true_iff] at hpos
    simp only [List.mem_cons, List.not_mem_nil, or_false, forall_eq_or_imp, forall_eq] at hpos
    obtain ⟨-, huniq⟩ := hpos
    rw [eval_mkAnd_map_true_iff] at huniq
    have hmem : tn_path_variable u i h ∈ (intRange (get_stack_size k)).flatMap (fun hh =>
        (intRange network.numNodes).map (fun op => tn_path_variable op i hh)) :=
      List.mem_flatMap.mpr ⟨h, mem_intRange.mpr hh,
        List.mem_map.mpr ⟨u, mem_intRange.mpr hu, rfl⟩⟩
    have hmem' : tn_path_variable u' i h' ∈ (intRange (get_stack_size k)).flatMap (fun hh =>
        (intRange network.numNodes).map (fun op => tn_path_variable op i hh)) :=
      List.mem_flatMap.mpr ⟨h', mem_intRange.mpr hh',
        List.mem_map.mpr ⟨u', mem_intRange.mpr hu', rfl⟩⟩
    have hne : tn_path_variable u i h ≠ tn_path_variable u' i h' := by
      intro hvar
      simp only [tn_path_variable, Formula.var.injEq, Var.x.injEq] at hvar
      exact heq ⟨hvar.1, hvar.2.2⟩
    rcases pair_mem_allPairs hmem hmem' hne with hp | hp
    · have := huniq _ hp
      simp [Formula.eval, mkOr, tn_path_variable, ht, ht'] at this
    · have := huniq _ hp
      simp [Formula.eval, mkOr, tn_path_variable, ht, ht'] at this

/-- C9: in every satisfying model of `tn_reduction` over a network whose
source and sink are nodes, the source is live at `(0, 0)` with `y4[0,0]` true,
the sink is live at `(k, 0)` with `y4[k,0]` true, and no other in-range
`(node, height)` pair is live at position 0 or position `k` (φ2 forces the
boundary variables and the pairwise at-most-one clauses of φ1 force
uniqueness). -/
theorem tn_boundary_laws (network : TunnelNetwork) (k : Nat) (v : Var → Bool)
    (hinit : 0 ≤ network.initial ∧ network.initial < (network.numNodes : Int))
    (hfin : 0 ≤ network.final ∧ network.final < (network.numNodes : Int))
    (hsat : (tn_reduction network k).eval v = true) :
    v (Var.x network.initial 0 0) = true ∧ v (Var.y4 0 0) = true ∧
    v (Var.x network.final (k : Int) 0) = true ∧ v (Var.y4 (k : Int) 0) = true ∧
    (∀ u h : Int, 0 ≤ u → u < (network.numNodes : Int) →
      0 ≤ h → h < (get_stack_size k : Int) →
      v (Var.x u 0 h) = true → u = network.initial ∧ h = 0) ∧
    (∀ u h : Int, 0 ≤ u → u < (network.numNodes : Int) →
      0 ≤ h → h < (get_stack_size k : Int) →
      v (Var.x u (k : Int) h) = true → u = network.final ∧ h = 0) := by
  obtain ⟨h1, h2, -, -, -, -, -, -, -⟩ := tn_reduction_parts hsat
  unfold tn_init_final_stack at h2
  simp only [mkAnd, List.foldr, tn_path_variable, tn_4_variable, Formula.eval,
    Bool.and_eq_true, and_true] at h2
  obtain ⟨⟨hx0, hy0⟩, hxk, hyk⟩ := h2
  have hS : 0 < (get_stack_size k : Int) := by
    unfold get_stack_size; omega
  refine ⟨hx0, hy0, hxk, hyk, ?_, ?_⟩
  · intro u h hu0 hun hh0 hhS hxu
    exact phi1_at_most_one h1 ⟨le_refl 0, by omega⟩ ⟨hu0, hun⟩ ⟨hh0, hhS⟩
      hinit ⟨le_refl 0, hS⟩ hxu hx0
  · intro u h hu0 hun hh0 hhS hxu
    exact phi1_at_most_one h1 ⟨by omega, le_refl (k : Int)⟩ ⟨hu0, hun⟩ ⟨hh0, hhS⟩
      hfin ⟨le_refl 0, hS⟩ hxu hxk

/-- Witness for `tn_boundary_laws` on the S1 model. -/
theorem tn_boundary_laws_witness :
    w9 (Var.x netS1.initial 0 0) = true ∧ w9 (Var.y4 0 0) = true ∧
    w9 (Var.x netS1.final 1 0) = true ∧ w9 (Var.y4 1 0) = true := by
  obtain ⟨a, b, c, d, -, -⟩ :=
    tn_boundary_laws netS1 1 w9 (by decide) (by decide) (by decide)
  exact ⟨a, b, c, d⟩

/-- The valuation `m1` with every `y6` variable flipped. -/
def m1y6 : Var → Bool
  | .y6 p h => !(m1 (Var.y6 p h))
  | w => m1 w

/-- Witness for `tn_decoder_ignores_y6`: flipping every `y6` value of `m1`
leaves the decoded path unchanged. -/
theorem tn_decoder_ignores_y6_witness :
    tn_get_path_from_model m1 net1 2 = tn_get_path_from_model m1y6 net1 2 :=
  tn_decoder_ignores_y6 net1 2 m1 m1y6 (fun _ _ _ => rfl) (fun _ _ => rfl)

/-- C5, amended: φ5 and the decoder use the same "below,top" pop table (their
case tables are the same Boolean function), and at every decapsulation step
where the cell below the top keeps its value from `pos` to `pos+1` — which
φ10 enforces for every transition except the last — the action the decoder
emits is exactly the action φ5 required to be in the source node's capability
set. -/
theorem tn_phi5_decoder_convention (network : TunnelNetwork) (length : Nat) (v : Var → Bool)
    (pos h u : Int)
    (hphi5 : (tn_decapsulation_stack_height network length pos).eval v = true)
    (hh1 : 1 ≤ h) (hhS : h < (get_stack_size length : Int))
    (hu : 0 ≤ u ∧ u < (network.numNodes : Int))
    (hx : v (Var.x u pos h) = true)
    (hnext : (tn_any_node_at network.numNodes (pos + 1) (h - 1)).eval v = true)
    (hxor_top : v (Var.y4 pos h) ≠ v (Var.y6 pos h))
    (hxor_under : v (Var.y4 pos (h - 1)) ≠ v (Var.y6 pos (h - 1)))
    (hagree : v (Var.y4 (pos + 1) (h - 1)) = v (Var.y4 pos (h - 1))) :
    decoderPopAction (v (Var.y4 pos h)) (v (Var.y4 (pos + 1) (h - 1))) =
      phi5RequiredPopAction (v (Var.y4 pos h)) (v (Var.y4 pos (h - 1))) ∧
    network.hasAction u (phi5RequiredPopAction (v (Var.y4 pos h)) (v (Var.y4 pos (h - 1)))) = true := by
  have hy6t : v (Var.y6 pos h) = !(v (Var.y4 pos h)) := by
    revert hxor_top
    cases v (Var.y4 pos h) <;> cases v (Var.y6 pos h) <;> simp
  have hy6u : v (Var.y6 pos (h - 1)) = !(v (Var.y4 pos (h - 1))) := by
    revert hxor_under
    cases v (Var.y4 pos (h - 1)) <;> cases v (Var.y6 pos (h - 1)) <;> simp
  constructor
  · rw [hagree]
    unfold decoderPopAction phi5RequiredPopAction
    rfl
  · unfold tn_decapsulation_stack_height at hphi5
    rw [if_neg (by omega : ¬ get_stack_size length ≤ 1)] at hphi5
    rw [eval_mkAnd_true_iff] at hphi5
    have hmemh : h ∈ (intRange (get_stack_size length - 1)).map (fun t => t + 1) :=
      List.mem_map.mpr ⟨h - 1, mem_intRange.mpr ⟨by omega, by omega⟩, by omega⟩
    have hel := hphi5 _ (List.mem_flatMap.mpr ⟨h, hmemh,
      List.mem_map.mpr ⟨u, mem_intRange.mpr hu, rfl⟩⟩)
    simp only [Formula.eval, mkAnd, List.foldr, tn_path_variable, tn_4_variable,
      tn_6_variable, eval_boolFormula, hx, hnext, hy6t, hy6u, Bool.true_and,
      Bool.and_true, Bool.not_true, Bool.false_or, Bool.and_eq_true] at hel
    rcases hb1 : v (Var.y4 pos h) <;> rcases hb2 : v (Var.y4 pos (h - 1)) <;>
      simp only [hb1, hb2, Bool.not_true, Bool.not_false, Bool.true_and,
        Bool.false_and, Bool.and_true, Bool.and_false, Bool.not_true,
        Bool.false_or, Bool.true_or, Bool.or_true, phi5RequiredPopAction,
        if_true, if_false] at hel ⊢ <;>
      simp_all

/-- Witness for `tn_phi5_decoder_convention` on the push/pop round trip
through `netS2` at its decapsulation step (`pos = 1`, `h = 1`, node 1). -/
theorem tn_phi5_decoder_convention_witness :
    decoderPopAction (w5 (Var.y4 1 1)) (w5 (Var.y4 2 0)) =
      phi5RequiredPopAction (w5 (Var.y4 1 1)) (w5 (Var.y4 1 0)) ∧
    netS2.hasAction 1 (phi5RequiredPopAction (w5 (Var.y4 1 1)) (w5 (Var.y4 1 0))) = true := by
  have := tn_phi5_decoder_convention netS2 2 w5 1 1 1 (by decide) (by decide)
    (by decide) (by decide) (by decide) (by decide) (by decide) (by decide) (by decide)
  simpa using this

/-!
Infrastructure for the completeness proof: stack-cell access lemmas and the
per-index facts of a well-formed path.
-/

theorem getD_append_lt {α : Type} (s t : List α) (d : α) (i : Nat) (h : i < s.length) :
    (s ++ t).getD i d = s.getD i d := by
  rw [List.getD_eq_getElem?_getD, List.getD_eq_getElem?_getD,
    List.getElem?_append_left h]

theorem getD_append_len {α : Type} (s : List α) (y d : α) :
    (s ++ [y]).getD s.length d = y := by
  rw [List.getD_eq_getElem?_getD, List.getElem?_append_right (le_refl _)]
  simp

theorem getD_dropLast {α : Type} (s : List α) (d : α) (i : Nat) (h : i < s.length - 1) :
    s.dropLast.getD i d = s.getD i d := by
  rw [List.getD_eq_getElem?_getD, List.getD_eq_getElem?_getD,
    List.getElem?_dropLast, if_pos h]

theorem stepOk_facts {network : TunnelNetwork} {H : Nat} {u : Int} {s : List Prot}
    {st : tn_step} (hok : stepOk network H u s st = true) :
    st.src = u ∧ (0 ≤ st.tgt ∧ st.tgt < (network.numNodes : Int)) ∧
    network.isEdge st.src st.tgt = true ∧
    network.hasAction st.src st.action = true ∧
    (1 ≤ s.length ∧ s.getD (s.length - 1) Prot.p4 = actionInputTop st.action) ∧
    (∀ y, pushNewTop st.action = some y → s.length + 1 ≤ H) ∧
    (∀ x, popBelow st.action = some x →
      2 ≤ s.length ∧ s.getD (s.length - 2) Prot.p4 = x) := by
  simp only [stepOk, Bool.and_eq_true, beq_iff_eq, decide_eq_true_eq] at hok
  obtain ⟨⟨⟨⟨⟨⟨hsrc, htgt⟩, hedge⟩, hact⟩, htop⟩, hpush⟩, hpop⟩ := hok
  refine ⟨hsrc, htgt, hedge, hact, htop, ?_, ?_⟩
  · intro y hy
    rw [hy] at hpush
    exact of_decide_eq_true hpush
  · intro x hx
    rw [hx] at hpop
    simp only [Bool.and_eq_true, beq_iff_eq, decide_eq_true_eq] at hpop
    exact hpop

theorem nodeFrom_cons (u : Int) (st : tn_step) (rest : List tn_step) (p : Nat) :
    nodeFrom u (st :: rest) (p + 1) = nodeFrom st.tgt rest p := by
  cases p with
  | zero => rfl
  | succ q =>
    show ((st :: rest).getD (q + 1) dfltStep).tgt = (rest.getD q dfltStep).tgt
    rw [List.getD_cons_succ]

theorem stackFrom_cons (s : List Prot) (st : tn_step) (rest : List tn_step) (p : Nat) :
    stackFrom s (st :: rest) (p + 1) = stackFrom (nextStack st.action s) rest p := by
  induction p with
  | zero => rfl
  | succ q ih =>
    show nextStack ((st :: rest).getD (q + 1) dfltStep).action (stackFrom s (st :: rest) (q + 1)) =
      nextStack ((rest).getD q dfltStep).action (stackFrom (nextStack st.action s) rest q)
    rw [ih, List.getD_cons_succ]

theorem wfFrom_stepOk {network : TunnelNetwork} {H : Nat} :
    ∀ {path : List tn_step} {u : Int} {s : List Prot},
      wfFrom network H u s path = true → ∀ p, p < path.length →
      stepOk network H (nodeFrom u path p) (stackFrom s path p) (path.getD p dfltStep) = true := by
  intro path
  induction path with
  | nil => intro u s _ p hp; simp at hp
  | cons st rest ih =>
    intro u s h p hp
    simp only [wfFrom, Bool.and_eq_true] at h
    obtain ⟨hstep, hrest⟩ := h
    cases p with
    | zero => exact hstep
    | succ q =>
      rw [nodeFrom_cons, stackFrom_cons, List.getD_cons_succ]
      exact ih hrest q (by simpa using hp)

theorem wfFrom_last {network : TunnelNetwork} {H : Nat} :
    ∀ {path : List tn_step} {u : Int} {s : List Prot},
      wfFrom network H u s path = true →
      nodeFrom u path path.length = network.final ∧
      stackFrom s path path.length = [Prot.p4] := by
  intro path
  induction path with
  | nil =>
    intro u s h
    simp only [wfFrom, Bool.and_eq_true, beq_iff_eq] at h
    exact ⟨h.1, h.2⟩
  | cons st rest ih =>
    intro u s h
    simp only [wfFrom, Bool.and_eq_true] at h
    have hrec := ih h.2
    constructor
    · rw [show (st :: rest).length = rest.length + 1 from rfl, nodeFrom_cons]
      exact hrec.1
    · rw [show (st :: rest).length = rest.length + 1 from rfl, stackFrom_cons]
      exact hrec.2

theorem stackFrom_len {network : TunnelNetwork} {H : Nat} :
    ∀ {path : List tn_step} {u : Int} {s : List Prot},
      wfFrom network H u s path = true → 1 ≤ s.length → s.length ≤ H →
      ∀ p, p ≤ path.length →
      1 ≤ (stackFrom s path p).length ∧ (stackFrom s path p).length ≤ H := by
  intro path
  induction path with
  | nil =>
    intro u s _ h1 h2 p hp
    have hz : p = 0 := Nat.le_zero.mp hp
    subst hz
    exact ⟨h1, h2⟩
  | cons st rest ih =>
    intro u s h h1 h2 p hp
    simp only [wfFrom, Bool.and_eq_true] at h
    obtain ⟨hstep, hrest⟩ := h
    cases p with
    | zero => exact ⟨h1, h2⟩
    | succ q =>
      rw [stackFrom_cons]
      obtain ⟨-, -, -, -, -, hpush, hpop⟩ := stepOk_facts hstep
      have hlen : 1 ≤ (nextStack st.action s).length ∧ (nextStack st.action s).length ≤ H := by
        cases hpt : pushNewTop st.action with
        | some y =>
          have hb := hpush y hpt
          unfold nextStack
          rw [hpt]
          simp only [List.length_append, List.length_cons, List.length_nil]
          omega
        | none =>
          cases hpb : popBelow st.action with
          | some x =>
            have hb := hpop x hpb
            unfold nextStack
            rw [hpt, hpb]
            rw [List.length_dropLast]
            omega
          | none =>
            unfold nextStack
            rw [hpt, hpb]
            exact ⟨h1, h2⟩
      exact ih hrest hlen.1 hlen.2 q (by simpa using hp)

theorem nodeFrom_range {network : TunnelNetwork} {H : Nat} :
    ∀ {path : List tn_step} {u : Int} {s : List Prot},
      wfFrom network H u s path = true →
      0 ≤ u → u < (network.numNodes : Int) →
      ∀ p, p ≤ path.length →
      0 ≤ nodeFrom u path p ∧ nodeFrom u path p < (network.numNodes : Int) := by
  intro path
  induction path with
  | nil =>
    intro u s _ h1 h2 p hp
    have hz : p = 0 := Nat.le_zero.mp hp
    subst hz
    exact ⟨h1, h2⟩
  | cons st rest ih =>
    intro u s h h1 h2 p hp
    simp only [wfFrom, Bool.and_eq_true] at h
    obtain ⟨hstep, hrest⟩ := h
    cases p with
    | zero => exact ⟨h1, h2⟩
    | succ q =>
      rw [nodeFrom_cons]
      obtain ⟨-, htgt, -, -, -, -, -⟩ := stepOk_facts hstep
      exact ih hrest htgt.1 htgt.2 q (by simpa using hp)

theorem stackFrom_succ_of_lt :
    ∀ {path : List tn_step} (s : List Prot) (p : Nat), p < path.length →
      stackFrom s path (p + 1) = nextStack (path.getD p dfltStep).action (stackFrom s path p) :=
  fun _ _ _ => rfl

theorem wfPath_facts {network : TunnelNetwork} {k : Nat} {path : List tn_step}
    (hwf : wfPath network k path = true) :
    path.length = k ∧
    (0 ≤ network.initial ∧ network.initial < (network.numNodes : Int)) ∧
    wfFrom network (get_stack_size k) network.initial [Prot.p4] path = true := by
  simp only [wfPath, Bool.and_eq_true, beq_iff_eq, decide_eq_true_eq] at hwf
  exact ⟨hwf.1.1, hwf.1.2, hwf.2⟩

theorem wf_height_bounds {network : TunnelNetwork} {k : Nat} {path : List tn_step}
    (hwf : wfPath network k path = true) (p : Nat) (hp : p ≤ k) :
    1 ≤ (stackAt path p).length ∧ (stackAt path p).length ≤ get_stack_size k := by
  obtain ⟨hlen, hinit, hfrom⟩ := wfPath_facts hwf
  exact stackFrom_len hfrom (by decide)
    (by simp only [List.length_cons, List.length_nil, get_stack_size]; omega) p (by omega)

theorem wf_node_bounds {network : TunnelNetwork} {k : Nat} {path : List tn_step}
    (hwf : wfPath network k path = true) (p : Nat) (hp : p ≤ k) :
    0 ≤ nodeAt network path p ∧ nodeAt network path p < (network.numNodes : Int) := by
  obtain ⟨hlen, hinit, hfrom⟩ := wfPath_facts hwf
  exact nodeFrom_range hfrom hinit.1 hinit.2 p (by omega)

theorem wf_step {network : TunnelNetwork} {k : Nat} {path : List tn_step}
    (hwf : wfPath network k path = true) (p : Nat) (hp : p < k) :
    stepOk network (get_stack_size k) (nodeAt network path p) (stackAt path p)
      (path.getD p dfltStep) = true := by
  obtain ⟨hlen, hinit, hfrom⟩ := wfPath_facts hwf
  exact wfFrom_stepOk hfrom p (by omega)

theorem wf_last {network : TunnelNetwork} {k : Nat} {path : List tn_step}
    (hwf : wfPath network k path = true) :
    nodeAt network path k = network.final ∧ stackAt path k = [Prot.p4] := by
  obtain ⟨hlen, hinit, hfrom⟩ := wfPath_facts hwf
  have := wfFrom_last hfrom
  rw [hlen] at this
  exact this

theorem wf_stack_succ {path : List tn_step} (p : Nat) :
    stackAt path (p + 1) = nextStack ((path.getD p dfltStep).action) (stackAt path p) := rfl

theorem wf_node_succ {network : TunnelNetwork} {path : List tn_step} (p : Nat) :
    nodeAt network path (p + 1) = (path.getD p dfltStep).tgt := rfl

theorem action_cases (a : TnAction) :
    (pushNewTop a = none ∧ popBelow a = none ∧
      (a = TnAction.transmit_4 ∨ a = TnAction.transmit_6)) ∨
    (∃ y, pushNewTop a = some y ∧ popBelow a = none) ∨
    (∃ x, popBelow a = some x ∧ pushNewTop a = none) := by
  cases a <;> simp [pushNewTop, popBelow]

theorem nextStack_len_push {a : TnAction} {y : Prot} (s : List Prot)
    (h : pushNewTop a = some y) : nextStack a s = s ++ [y] := by
  unfold nextStack
  rw [h]

theorem nextStack_pop {a : TnAction} {x : Prot} (s : List Prot)
    (hp : pushNewTop a = none) (h : popBelow a = some x) :
    nextStack a s = s.dropLast := by
  unfold nextStack
  rw [hp, h]

theorem nextStack_transmit {a : TnAction} (s : List Prot)
    (h1 : pushNewTop a = none) (h2 : popBelow a = none) : nextStack a s = s := by
  unfold nextStack
  rw [h1, h2]

theorem encX_true_iff {network : TunnelNetwork} {k : Nat} {path : List tn_step}
    {u h : Int} {P : Nat} (hP : P ≤ k) :
    encX network k path u (P : Int) h = true ↔
    u = nodeAt network path P ∧ h = ((stackAt path P).length : Int) - 1 := by
  simp only [encX, Bool.and_eq_true, decide_eq_true_eq, beq_iff_eq, and_assoc]
  rw [Int.toNat_natCast]
  constructor
  · rintro ⟨-, -, h1, h2⟩
    exact ⟨h1, h2⟩
  · rintro ⟨h1, h2⟩
    exact ⟨by omega, by omega, h1, h2⟩

theorem encY4pad_true_iff {k : Nat} {path : List tn_step} {h : Int} {P : Nat} (hP : P ≤ k) :
    encY4pad k path (P : Int) h = true ↔
    0 ≤ h ∧ (h < ((stackAt path P).length : Int) →
      (stackAt path P).getD h.toNat Prot.p4 = Prot.p4) := by
  simp only [encY4pad, Bool.and_eq_true, decide_eq_true_eq, beq_iff_eq, and_assoc]
  rw [Int.toNat_natCast]
  constructor
  · rintro ⟨-, -, h0, hcond⟩
    refine ⟨h0, fun hlt => ?_⟩
    rw [if_pos hlt] at hcond
    exact eq_of_beq hcond
  · rintro ⟨h0, hcond⟩
    refine ⟨by omega, by omega, h0, ?_⟩
    by_cases hlt : h < ((stackAt path P).length : Int)
    · rw [if_pos hlt]
      exact beq_iff_eq.mpr (hcond hlt)
    · rw [if_neg hlt]

theorem encY6_true_iff {k : Nat} {path : List tn_step} {h : Int} {P : Nat} (hP : P ≤ k) :
    encY6 k path (P : Int) h = true ↔
    0 ≤ h ∧ h < ((stackAt path P).length : Int) ∧
    (stackAt path P).getD h.toNat Prot.p4 = Prot.p6 := by
  simp only [encY6, Bool.and_eq_true, decide_eq_true_eq, beq_iff_eq, and_assoc]
  rw [Int.toNat_natCast]
  constructor
  · rintro ⟨-, -, h0, h1, h2⟩
    exact ⟨h0, h1, h2⟩
  · rintro ⟨h0, h1, h2⟩
    exact ⟨by omega, by omega, h0, h1, h2⟩

theorem evalA_x (network : TunnelNetwork) (k : Nat) (path : List tn_step) (u p h : Int) :
    Formula.eval (encodeModelPadded network k path) (tn_path_variable u p h) =
    encX network k path u p h := rfl

theorem evalA_y4 (network : TunnelNetwork) (k : Nat) (path : List tn_step) (p h : Int) :
    Formula.eval (encodeModelPadded network k path) (tn_4_variable p h) =
    encY4pad k path p h := rfl

theorem evalA_y6 (network : TunnelNetwork) (k : Nat) (path : List tn_step) (p h : Int) :
    Formula.eval (encodeModelPadded network k path) (tn_6_variable p h) =
    encY6 k path p h := rfl

theorem A_x (network : TunnelNetwork) (k : Nat) (path : List tn_step) (u p h : Int) :
    encodeModelPadded network k path (Var.x u p h) = encX network k path u p h := rfl

theorem A_y4 (network : TunnelNetwork) (k : Nat) (path : List tn_step) (p h : Int) :
    encodeModelPadded network k path (Var.y4 p h) = encY4pad k path p h := rfl

theorem A_y6 (network : TunnelNetwork) (k : Nat) (path : List tn_step) (p h : Int) :
    encodeModelPadded network k path (Var.y6 p h) = encY6 k path p h := rfl

theorem prot_cases (c : Prot) : c = Prot.p4 ∨ c = Prot.p6 := by
  cases c
  · exact Or.inl rfl
  · exact Or.inr rfl

theorem encY4pad_of_cell_p4 {k : Nat} {path : List tn_step} {h : Int} {P : Nat}
    (hP : P ≤ k) (hh0 : 0 ≤ h)
    (hc : (stackAt path P).getD h.toNat Prot.p4 = Prot.p4) :
    encY4pad k path (P : Int) h = true :=
  (encY4pad_true_iff hP).mpr ⟨hh0, fun _ => hc⟩

theorem encY4pad_of_above {k : Nat} {path : List tn_step} {h : Int} {P : Nat}
    (hP : P ≤ k) (hh0 : 0 ≤ h) (hge : ¬ h < ((stackAt path P).length : Int)) :
    encY4pad k path (P : Int) h = true :=
  (encY4pad_true_iff hP).mpr ⟨hh0, fun hlt => absurd hlt hge⟩

theorem encY4pad_of_cell_p6 {k : Nat} {path : List tn_step} {h : Int} {P : Nat}
    (hP : P ≤ k) (hlt : h < ((stackAt path P).length : Int))
    (hc : (stackAt path P).getD h.toNat Prot.p4 = Prot.p6) :
    encY4pad k path (P : Int) h = false := by
  rw [← Bool.not_eq_true]
  intro hcontra
  have := ((encY4pad_true_iff hP).mp hcontra).2 hlt
  rw [hc] at this
  cases this

theorem encY6_of_cell_p6 {k : Nat} {path : List tn_step} {h : Int} {P : Nat}
    (hP : P ≤ k) (hh0 : 0 ≤ h) (hlt : h < ((stackAt path P).length : Int))
    (hc : (stackAt path P).getD h.toNat Prot.p4 = Prot.p6) :
    encY6 k path (P : Int) h = true :=
  (encY6_true_iff hP).mpr ⟨hh0, hlt, hc⟩

theorem encY6_of_cell_p4 {k : Nat} {path : List tn_step} {h : Int} {P : Nat}
    (hP : P ≤ k) (hc : (stackAt path P).getD h.toNat Prot.p4 = Prot.p4) :
    encY6 k path (P : Int) h = false := by
  rw [← Bool.not_eq_true]
  intro hcontra
  have := ((encY6_true_iff hP).mp hcontra).2.2
  rw [hc] at this
  cases this

theorem encY6_of_above {k : Nat} {path : List tn_step} {h : Int} {P : Nat}
    (hP : P ≤ k) (hge : ¬ h < ((stackAt path P).length : Int)) :
    encY6 k path (P : Int) h = false := by
  rw [← Bool.not_eq_true]
  intro hcontra
  exact hge ((encY6_true_iff hP).mp hcontra).2.1

theorem encY6_eq_not_encY4pad {k : Nat} {path : List tn_step} {h : Int} {P : Nat}
    (hP : P ≤ k) (hh0 : 0 ≤ h) :
    encY6 k path (P : Int) h = !(encY4pad k path (P : Int) h) := by
  by_cases hlt : h < ((stackAt path P).length : Int)
  · rcases prot_cases ((stackAt path P).getD h.toNat Prot.p4) with hc | hc
    · rw [encY6_of_cell_p4 hP hc, encY4pad_of_cell_p4 hP hh0 hc]
      rfl
    · rw [encY6_of_cell_p6 hP hh0 hlt hc, encY4pad_of_cell_p6 hP hlt hc]
      rfl
  · rw [encY6_of_above hP hlt, encY4pad_of_above hP hh0 hlt]
    rfl

theorem any_node_at_enc {network : TunnelNetwork} {k : Nat} {path : List tn_step}
    (hwf : wfPath network k path = true) {hh : Int} {Q : Nat} (hQ : Q ≤ k) :
    ((tn_any_node_at network.numNodes (Q : Int) hh).eval
      (encodeModelPadded network k path) = true) ↔
    hh = ((stackAt path Q).length : Int) - 1 := by
  unfold tn_any_node_at
  rw [eval_mkOr_map_true_iff]
  constructor
  · rintro ⟨n, hn, he⟩
    rw [evalA_x] at he
    exact ((encX_true_iff hQ).mp he).2
  · intro hhh
    refine ⟨nodeAt network path Q, mem_intRange.mpr (wf_node_bounds hwf Q hQ), ?_⟩
    rw [evalA_x]
    exact (encX_true_iff hQ).mpr ⟨rfl, hhh⟩

theorem eval_implies_true {v : Var → Bool} {a b : Formula}
    (h : a.eval v = true → b.eval v = true) : (Formula.implies a b).eval v = true := by
  simp only [Formula.eval]
  cases ha : a.eval v
  · rfl
  · simp [h ha]

theorem eval_mkAnd_pair_true_iff {v : Var → Bool} {a b : Formula} :
    (mkAnd [a, b]).eval v = true ↔ a.eval v = true ∧ b.eval v = true := by
  simp [mkAnd, Formula.eval, Bool.and_eq_true]

theorem eval_mkAnd_four_true_iff {v : Var → Bool} {a b c d : Formula} :
    (mkAnd [a, b, c, d]).eval v = true ↔
    a.eval v = true ∧ b.eval v = true ∧ c.eval v = true ∧ d.eval v = true := by
  simp [mkAnd, Formula.eval, Bool.and_eq_true, and_assoc]

theorem step_kind_transmit {network : TunnelNetwork} {k : Nat} {path : List tn_step}
    (hwf : wfPath network k path = true) {p : Nat} (hp : p < k)
    (heq : (stackAt path (p + 1)).length = (stackAt path p).length) :
    ((path.getD p dfltStep).action = TnAction.transmit_4 ∨
     (path.getD p dfltStep).action = TnAction.transmit_6) ∧
    stackAt path (p + 1) = stackAt path p := by
  obtain ⟨-, -, -, -, -, -, hpop⟩ := stepOk_facts (wf_step hwf p hp)
  rcases action_cases (path.getD p dfltStep).action with ⟨h1, h2, h3⟩ | ⟨y, hy, -⟩ | ⟨x, hx, hxp⟩
  · exact ⟨h3, by rw [wf_stack_succ, nextStack_transmit _ h1 h2]⟩
  · exfalso
    rw [wf_stack_succ, nextStack_len_push _ hy] at heq
    simp at heq
  · exfalso
    have h2 := (hpop x hx).1
    rw [wf_stack_succ, nextStack_pop _ hxp hx, List.length_dropLast] at heq
    omega

theorem step_kind_push {network : TunnelNetwork} {k : Nat} {path : List tn_step}
    (hwf : wfPath network k path = true) {p : Nat} (hp : p < k)
    (heq : (stackAt path (p + 1)).length = (stackAt path p).length + 1) :
    ∃ y, pushNewTop (path.getD p dfltStep).action = some y ∧
      stackAt path (p + 1) = stackAt path p ++ [y] := by
  obtain ⟨-, -, -, -, -, -, hpop⟩ := stepOk_facts (wf_step hwf p hp)
  rcases action_cases (path.getD p dfltStep).action with ⟨h1, h2, -⟩ | ⟨y, hy, -⟩ | ⟨x, hx, hxp⟩
  · exfalso
    rw [wf_stack_succ, nextStack_transmit _ h1 h2] at heq
    omega
  · exact ⟨y, hy, by rw [wf_stack_succ, nextStack_len_push _ hy]⟩
  · exfalso
    have h2 := (hpop x hx).1
    rw [wf_stack_succ, nextStack_pop _ hxp hx, List.length_dropLast] at heq
    omega

theorem step_kind_pop {network : TunnelNetwork} {k : Nat} {path : List tn_step}
    (hwf : wfPath network k path = true) {p : Nat} (hp : p < k)
    (heq : (stackAt path (p + 1)).length + 1 = (stackAt path p).length) :
    ∃ x, popBelow (path.getD p dfltStep).action = some x ∧
      pushNewTop (path.getD p dfltStep).action = none ∧
      stackAt path (p + 1) = (stackAt path p).dropLast ∧
      2 ≤ (stackAt path p).length ∧
      (stackAt path p).getD ((stackAt path p).length - 2) Prot.p4 = x := by
  obtain ⟨-, -, -, -, -, -, hpop⟩ := stepOk_facts (wf_step hwf p hp)
  rcases action_cases (path.getD p dfltStep).action with ⟨h1, h2, -⟩ | ⟨y, hy, -⟩ | ⟨x, hx, hxp⟩
  · exfalso
    rw [wf_stack_succ, nextStack_transmit _ h1 h2] at heq
    omega
  · exfalso
    rw [wf_stack_succ, nextStack_len_push _ hy] at heq
    simp at heq
    omega
  · exact ⟨x, hx, hxp, by rw [wf_stack_succ, nextStack_pop _ hxp hx],
      (hpop x hx).1, (hpop x hx).2⟩

theorem allPairs_mem {α : Type} {l : List α} : ∀ p ∈ allPairs l, p.1 ∈ l ∧ p.2 ∈ l := by
  induction l with
  | nil => intro p hp; cases hp
  | cons c t ih =>
    intro p hp
    rw [allPairs_cons] at hp
    rcases List.mem_append.mp hp with hp' | hp'
    · rcases List.mem_map.mp hp' with ⟨b, hb, rfl⟩
      exact ⟨List.mem_cons_self _ _, List.mem_cons_of_mem _ hb⟩
    · have := ih p hp'
      exact ⟨List.mem_cons_of_mem _ this.1, List.mem_cons_of_mem _ this.2⟩

theorem phi1_vars_nodup (network : TunnelNetwork) (k : Nat) (i : Int) :
    ((intRange (get_stack_size k)).flatMap (fun h =>
      (intRange network.numNodes).map (fun op => tn_path_variable op i h))).Nodup := by
  rw [List.nodup_flatMap]
  constructor
  · intro x _
    refine List.Nodup.map ?_ (intRange_nodup _)
    intro a b hab
    simpa [tn_path_variable, Formula.var.injEq, Var.x.injEq] using hab
  · refine List.Pairwise.imp ?_ (intRange_nodup (get_stack_size k))
    intro a b hab x hx1 hx2
    rcases List.mem_map.mp hx1 with ⟨o1, -, rfl⟩
    rcases List.mem_map.mp hx2 with ⟨o2, -, heq⟩
    simp only [tn_path_variable, Formula.var.injEq, Var.x.injEq] at heq
    exact hab heq.2.2.symm

theorem phi2_enc {network : TunnelNetwork} {k : Nat} {path : List tn_step}
    (hwf : wfPath network k path = true) :
    (tn_init_final_stack network k).eval (encodeModelPadded network k path) = true := by
  unfold tn_init_final_stack
  rw [eval_mkAnd_pair_true_iff, eval_mkAnd_pair_true_iff, eval_mkAnd_pair_true_iff]
  obtain ⟨hfin, hstk⟩ := wf_last hwf
  refine ⟨⟨?_, ?_⟩, ?_, ?_⟩
  · rw [evalA_x]
    exact (encX_true_iff (Nat.zero_le k)).mpr ⟨rfl, rfl⟩
  · rw [evalA_y4]
    exact encY4pad_of_cell_p4 (Nat.zero_le k) (le_refl 0) rfl
  · rw [evalA_x]
    refine (encX_true_iff (le_refl k)).mpr ⟨hfin.symm, ?_⟩
    rw [hstk]
    rfl
  · rw [evalA_y4]
    refine encY4pad_of_cell_p4 (le_refl k) (le_refl 0) ?_
    rw [hstk]
    rfl

theorem phi6_enc {network : TunnelNetwork} {k : Nat} {path : List tn_step}
    (hwf : wfPath network k path = true) (pos : Int) (hpos : pos ∈ intRange (k + 1)) :
    (tn_stack_content_coherence k pos).eval (encodeModelPadded network k path) = true := by
  obtain ⟨hp0, hpk⟩ := mem_intRange.mp hpos
  obtain ⟨P, rfl⟩ : ∃ P : Nat, pos = (P : Int) := ⟨pos.toNat, by omega⟩
  have hP : P ≤ k := by omega
  unfold tn_stack_content_coherence
  rw [eval_mkAnd_map_true_iff]
  intro h hh
  obtain ⟨hh0, -⟩ := mem_intRange.mp hh
  simp only [Formula.eval, tn_4_variable, tn_6_variable, A_y4, A_y6]
  rw [encY6_eq_not_encY4pad hP hh0]
  cases encY4pad k path (P : Int) h <;> rfl

theorem phi1_enc {network : TunnelNetwork} {k : Nat} {path : List tn_step}
    (hwf : wfPath network k path = true) :
    (tn_exist_uniqueOp_uniqueHeight network k).eval (encodeModelPadded network k path) = true := by
  unfold tn_exist_uniqueOp_uniqueHeight
  rw [eval_mkAnd_map_true_iff]
  intro i hi
  obtain ⟨hi0, hik⟩ := mem_intRange.mp hi
  obtain ⟨P, rfl⟩ : ∃ P : Nat, i = (P : Int) := ⟨i.toNat, by omega⟩
  have hP : P ≤ k := by omega
  have hlen := wf_height_bounds hwf P hP
  have huniq : ∀ f ∈ (intRange (get_stack_size k)).flatMap (fun h =>
      (intRange network.numNodes).map (fun op => tn_path_variable op (P : Int) h)),
      f.eval (encodeModelPadded network k path) = true →
      f = tn_path_variable (nodeAt network path P) (P : Int)
        (((stackAt path P).length : Int) - 1) := by
    intro f hf he
    rcases List.mem_flatMap.mp hf with ⟨h, -, hf2⟩
    rcases List.mem_map.mp hf2 with ⟨op, -, rfl⟩
    rw [evalA_x] at he
    obtain ⟨h1, h2⟩ := (encX_true_iff hP).mp he
    rw [h1, h2]
  rw [eval_mkAnd_pair_true_iff]
  constructor
  · rw [eval_mkOr_true_iff]
    refine ⟨tn_path_variable (nodeAt network path P) (P : Int)
      (((stackAt path P).length : Int) - 1), ?_, ?_⟩
    · apply List.mem_flatMap.mpr
      refine ⟨((stackAt path P).length : Int) - 1, ?_, ?_⟩
      · rw [mem_intRange]
        omega
      · exact List.mem_map.mpr ⟨nodeAt network path P,
          mem_intRange.mpr (wf_node_bounds hwf P hP), rfl⟩
    · rw [evalA_x]
      exact (encX_true_iff hP).mpr ⟨rfl, rfl⟩
  · rw [eval_mkAnd_map_true_iff]
    intro pq hpq
    have hne := allPairs_ne_of_nodup (phi1_vars_nodup network k (P : Int)) pq hpq
    obtain ⟨hm1, hm2⟩ := allPairs_mem pq hpq
    rw [eval_mkOr_true_iff]
    by_cases h1 : pq.1.eval (encodeModelPadded network k path) = true
    · by_cases h2 : pq.2.eval (encodeModelPadded network k path) = true
      · exact absurd ((huniq pq.1 hm1 h1).trans (huniq pq.2 hm2 h2).symm) hne
      · refine ⟨Formula.not pq.2, by simp, ?_⟩
        simp only [Formula.eval]
        simp [Bool.not_eq_true] at h2
        rw [h2]
        rfl
    · refine ⟨Formula.not pq.1, by simp, ?_⟩
      simp only [Formula.eval]
      simp [Bool.not_eq_true] at h1
      rw [h1]
      rfl

theorem phi3_enc {network : TunnelNetwork} {k : Nat} {path : List tn_step}
    (hwf : wfPath network k path = true) (pos : Int) (hpos : pos ∈ intRange k) :
    (tn_transition_stack_height network k pos).eval (encodeModelPadded network k path) = true := by
  obtain ⟨hp0, hpk⟩ := mem_intRange.mp hpos
  obtain ⟨P, rfl⟩ : ∃ P : Nat, pos = (P : Int) := ⟨pos.toNat, by omega⟩
  have hPk : P < k := by omega
  unfold tn_transition_stack_height
  rw [eval_mkAnd_true_iff]
  intro f hf
  rcases List.mem_flatMap.mp hf with ⟨h, hh, hf2⟩
  rcases List.mem_map.mp hf2 with ⟨u, hu, rfl⟩
  apply eval_implies_true
  intro hprem
  rw [eval_mkAnd_pair_true_iff] at hprem
  obtain ⟨hx, hany⟩ := hprem
  rw [evalA_x] at hx
  obtain ⟨hu_eq, hh_eq⟩ := (encX_true_iff (le_of_lt hPk)).mp hx
  rw [show (P : Int) + 1 = ((P + 1 : Nat) : Int) from by omega] at hany
  have hany' := (any_node_at_enc hwf (by omega : P + 1 ≤ k)).mp hany
  have hlen1 := (wf_height_bounds hwf P (le_of_lt hPk)).1
  have hlen_eq : (stackAt path (P + 1)).length = (stackAt path P).length := by omega
  obtain ⟨htr, hstk_eq⟩ := step_kind_transmit hwf hPk hlen_eq
  obtain ⟨hsrc, -, -, hact, htop, -, -⟩ := stepOk_facts (wf_step hwf P hPk)
  have hlt : h < ((stackAt path P).length : Int) := by omega
  rw [eval_mkAnd_pair_true_iff]
  constructor
  · apply eval_implies_true
    intro hy4
    rw [evalA_y4] at hy4
    have hcell : (stackAt path P).getD ((stackAt path P).length - 1) Prot.p4 = Prot.p4 := by
      have hc := ((encY4pad_true_iff (le_of_lt hPk)).mp hy4).2 hlt
      rwa [show h.toNat = (stackAt path P).length - 1 from by omega] at hc
    rcases htr with ha | ha
    · rw [eval_boolFormula, hu_eq, ← hsrc, ← ha]
      exact hact
    · exfalso
      rw [ha] at htop
      have hcontra := htop.2
      rw [hcell] at hcontra
      exact absurd hcontra (by decide)
  · apply eval_implies_true
    intro hy6
    rw [evalA_y6] at hy6
    obtain ⟨-, -, hcell6⟩ := (encY6_true_iff (le_of_lt hPk)).mp hy6
    rw [show h.toNat = (stackAt path P).length - 1 from by omega] at hcell6
    rcases htr with ha | ha
    · exfalso
      rw [ha] at htop
      have hcontra := htop.2
      rw [hcell6] at hcontra
      exact absurd hcontra (by decide)
    · rw [eval_boolFormula, hu_eq, ← hsrc, ← ha]
      exact hact

theorem push_id_44 {a : TnAction} (h1 : pushNewTop a = some Prot.p4)
    (h2 : actionInputTop a = Prot.p4) : a = TnAction.push_4_4 := by
  cases a <;> simp_all [pushNewTop, actionInputTop]

theorem push_id_46 {a : TnAction} (h1 : pushNewTop a = some Prot.p6)
    (h2 : actionInputTop a = Prot.p4) : a = TnAction.push_4_6 := by
  cases a <;> simp_all [pushNewTop, actionInputTop]

theorem push_id_64 {a : TnAction} (h1 : pushNewTop a = some Prot.p4)
    (h2 : actionInputTop a = Prot.p6) : a = TnAction.push_6_4 := by
  cases a <;> simp_all [pushNewTop, actionInputTop]

theorem push_id_66 {a : TnAction} (h1 : pushNewTop a = some Prot.p6)
    (h2 : actionInputTop a = Prot.p6) : a = TnAction.push_6_6 := by
  cases a <;> simp_all [pushNewTop, actionInputTop]

theorem pop_id_44 {a : TnAction} (h1 : popBelow a = some Prot.p4)
    (h2 : actionInputTop a = Prot.p4) : a = TnAction.pop_4_4 := by
  cases a <;> simp_all [popBelow, actionInputTop]

theorem pop_id_64 {a : TnAction} (h1 : popBelow a = some Prot.p6)
    (h2 : actionInputTop a = Prot.p4) : a = TnAction.pop_6_4 := by
  cases a <;> simp_all [popBelow, actionInputTop]

theorem pop_id_46 {a : TnAction} (h1 : popBelow a = some Prot.p4)
    (h2 : actionInputTop a = Prot.p6) : a = TnAction.pop_4_6 := by
  cases a <;> simp_all [popBelow, actionInputTop]

theorem pop_id_66 {a : TnAction} (h1 : popBelow a = some Prot.p6)
    (h2 : actionInputTop a = Prot.p6) : a = TnAction.pop_6_6 := by
  cases a <;> simp_all [popBelow, actionInputTop]

theorem phi4_enc {network : TunnelNetwork} {k : Nat} {path : List tn_step}
    (hwf : wfPath network k path = true) (pos : Int) (hpos : pos ∈ intRange k) :
    (tn_encapsulation_stack_height network k pos).eval (encodeModelPadded network k path) = true := by
  obtain ⟨hp0, hpk⟩ := mem_intRange.mp hpos
  obtain ⟨P, rfl⟩ : ∃ P : Nat, pos = (P : Int) := ⟨pos.toNat, by omega⟩
  have hPk : P < k := by omega
  unfold tn_encapsulation_stack_height
  by_cases hS : get_stack_size k ≤ 1
  · rw [if_pos hS]
    rfl
  · rw [if_neg hS]
    rw [eval_mkAnd_true_iff]
    intro f hf
    rcases List.mem_flatMap.mp hf with ⟨h, hh, hf2⟩
    rcases List.mem_map.mp hf2 with ⟨u, hu, rfl⟩
    rw [show ((P : Int) + 1) = ((P + 1 : Nat) : Int) from by omega]
    apply eval_implies_true
    intro hprem
    rw [eval_mkAnd_pair_true_iff] at hprem
    obtain ⟨hx, hany⟩ := hprem
    rw [evalA_x] at hx
    obtain ⟨hu_eq, hh_eq⟩ := (encX_true_iff (le_of_lt hPk)).mp hx
    have hany' := (any_node_at_enc hwf (by omega : P + 1 ≤ k)).mp hany
    have hlen1 := (wf_height_bounds hwf P (le_of_lt hPk)).1
    have hlen2 := (wf_height_bounds hwf (P + 1) (by omega)).1
    have hlen_eq : (stackAt path (P + 1)).length = (stackAt path P).length + 1 := by omega
    obtain ⟨y, hy, hstk⟩ := step_kind_push hwf hPk hlen_eq
    obtain ⟨hsrc, -, -, hact, htop, -, -⟩ := stepOk_facts (wf_step hwf P hPk)
    have hcurr_cell : (stackAt path P).getD h.toNat Prot.p4 =
        actionInputTop (path.getD P dfltStep).action := by
      rw [show h.toNat = (stackAt path P).length - 1 from by omega]
      exact htop.2
    have hnext_cell : (stackAt path (P + 1)).getD (h + 1).toNat Prot.p4 = y := by
      rw [hstk, show (h + 1).toNat = (stackAt path P).length from by omega]
      exact getD_append_len _ _ _
    have hcurr_lt : h < ((stackAt path P).length : Int) := by omega
    have hnext_lt : h + 1 < ((stackAt path (P + 1)).length : Int) := by omega
    have hh0 : 0 ≤ h := by omega
    rw [eval_mkAnd_four_true_iff]
    rcases prot_cases (actionInputTop (path.getD P dfltStep).action) with hi | hi <;>
      rcases prot_cases y with hyy | hyy
    · -- top 4, new 4: push_4_4
      rw [hi] at hcurr_cell
      rw [hyy] at hnext_cell
      have ha := push_id_44 (hyy ▸ hy) hi
      refine ⟨?_, ?_, ?_, ?_⟩
      · apply eval_implies_true
        intro _
        rw [eval_boolFormula, hu_eq, ← hsrc, ← ha]
        exact hact
      · apply eval_implies_true
        intro hpair
        rw [eval_mkAnd_pair_true_iff] at hpair
        have h6 := hpair.2
        rw [evalA_y6, encY6_of_cell_p4 (by omega : P + 1 ≤ k) hnext_cell] at h6
        exact Bool.noConfusion h6
      · apply eval_implies_true
        intro hpair
        rw [eval_mkAnd_pair_true_iff] at hpair
        have h6 := hpair.1
        rw [evalA_y6, encY6_of_cell_p4 (le_of_lt hPk) hcurr_cell] at h6
        exact Bool.noConfusion h6
      · apply eval_implies_true
        intro hpair
        rw [eval_mkAnd_pair_true_iff] at hpair
        have h6 := hpair.1
        rw [evalA_y6, encY6_of_cell_p4 (le_of_lt hPk) hcurr_cell] at h6
        exact Bool.noConfusion h6
    · -- top 4, new 6: push_4_6
      rw [hi] at hcurr_cell
      rw [hyy] at hnext_cell
      have ha := push_id_46 (hyy ▸ hy) hi
      refine ⟨?_, ?_, ?_, ?_⟩
      · apply eval_implies_true
        intro hpair
        rw [eval_mkAnd_pair_true_iff] at hpair
        have h4 := hpair.2
        rw [evalA_y4, encY4pad_of_cell_p6 (by omega : P + 1 ≤ k) hnext_lt hnext_cell] at h4
        exact Bool.noConfusion h4
      · apply eval_implies_true
        intro _
        rw [eval_boolFormula, hu_eq, ← hsrc, ← ha]
        exact hact
      · apply eval_implies_true
        intro hpair
        rw [eval_mkAnd_pair_true_iff] at hpair
        have h6 := hpair.1
        rw [evalA_y6, encY6_of_cell_p4 (le_of_lt hPk) hcurr_cell] at h6
        exact Bool.noConfusion h6
      · apply eval_implies_true
        intro hpair
        rw [eval_mkAnd_pair_true_iff] at hpair
        have h6 := hpair.1
        rw [evalA_y6, encY6_of_cell_p4 (le_of_lt hPk) hcurr_cell] at h6
        exact Bool.noConfusion h6
    · -- top 6, new 4: push_6_4
      rw [hi] at hcurr_cell
      rw [hyy] at hnext_cell
      have ha := push_id_64 (hyy ▸ hy) hi
      refine ⟨?_, ?_, ?_, ?_⟩
      · apply eval_implies_true
        intro hpair
        rw [eval_mkAnd_pair_true_iff] at hpair
        have h4 := hpair.1
        rw [evalA_y4, encY4pad_of_cell_p6 (le_of_lt hPk) hcurr_lt hcurr_cell] at h4
        exact Bool.noConfusion h4
      · apply eval_implies_true
        intro hpair
        rw [eval_mkAnd_pair_true_iff] at hpair
        have h4 := hpair.1
        rw [evalA_y4, encY4pad_of_cell_p6 (le_of_lt hPk) hcurr_lt hcurr_cell] at h4
        exact Bool.noConfusion h4
      · apply eval_implies_true
        intro _
        rw [eval_boolFormula, hu_eq, ← hsrc, ← ha]
        exact hact
      · apply eval_implies_true
        intro hpair
        rw [eval_mkAnd_pair_true_iff] at hpair
        have h6 := hpair.2
        rw [evalA_y6, encY6_of_cell_p4 (by omega : P + 1 ≤ k) hnext_cell] at h6
        exact Bool.noConfusion h6
    · -- top 6, new 6: push_6_6
      rw [hi] at hcurr_cell
      rw [hyy] at hnext_cell
      have ha := push_id_66 (hyy ▸ hy) hi
      refine ⟨?_, ?_, ?_, ?_⟩
      · apply eval_implies_true
        intro hpair
        rw [eval_mkAnd_pair_true_iff] at hpair
        have h4 := hpair.1
        rw [evalA_y4, encY4pad_of_cell_p6 (le_of_lt hPk) hcurr_lt hcurr_cell] at h4
        exact Bool.noConfusion h4
      · apply eval_implies_true
        intro hpair
        rw [eval_mkAnd_pair_true_iff] at hpair
        have h4 := hpair.1
        rw [evalA_y4, encY4pad_of_cell_p6 (le_of_lt hPk) hcurr_lt hcurr_cell] at h4
        exact Bool.noConfusion h4
      · apply eval_implies_true
        intro hpair
        rw [eval_mkAnd_pair_true_iff] at hpair
        have h4 := hpair.2
        rw [evalA_y4, encY4pad_of_cell_p6 (by omega : P + 1 ≤ k) hnext_lt hnext_cell] at h4
        exact Bool.noConfusion h4
      · apply eval_implies_true
        intro _
        rw [eval_boolFormula, hu_eq, ← hsrc, ← ha]
        exact hact

theorem phi5_enc {network : TunnelNetwork} {k : Nat} {path : List tn_step}
    (hwf : wfPath network k path = true) (pos : Int) (hpos : pos ∈ intRange k) :
    (tn_decapsulation_stack_height network k pos).eval (encodeModelPadded network k path) = true := by
  obtain ⟨hp0, hpk⟩ := mem_intRange.mp hpos
  obtain ⟨P, rfl⟩ : ∃ P : Nat, pos = (P : Int) := ⟨pos.toNat, by omega⟩
  have hPk : P < k := by omega
  unfold tn_decapsulation_stack_height
  by_cases hS : get_stack_size k ≤ 1
  · rw [if_pos hS]
    rfl
  · rw [if_neg hS]
    rw [eval_mkAnd_true_iff]
    intro f hf
    rcases List.mem_flatMap.mp hf with ⟨h, hh, hf2⟩
    rcases List.mem_map.mp hf2 with ⟨u, hu, rfl⟩
    rcases List.mem_map.mp hh with ⟨t, ht, hth⟩
    obtain ⟨ht0, -⟩ := mem_intRange.mp ht
    have hh1 : 1 ≤ h := by omega
    rw [show ((P : Int) + 1) = ((P + 1 : Nat) : Int) from by omega]
    apply eval_implies_true
    intro hprem
    rw [eval_mkAnd_pair_true_iff] at hprem
    obtain ⟨hx, hany⟩ := hprem
    rw [evalA_x] at hx
    obtain ⟨hu_eq, hh_eq⟩ := (encX_true_iff (le_of_lt hPk)).mp hx
    have hany' := (any_node_at_enc hwf (by omega : P + 1 ≤ k)).mp hany
    have hlen1 := (wf_height_bounds hwf P (le_of_lt hPk)).1
    have hlen2 := (wf_height_bounds hwf (P + 1) (by omega)).1
    have hlen_eq : (stackAt path (P + 1)).length + 1 = (stackAt path P).length := by omega
    obtain ⟨x, hx_pop, hxp, hstk, h2L, hbelow⟩ := step_kind_pop hwf hPk hlen_eq
    obtain ⟨hsrc, -, -, hact, htop, -, -⟩ := stepOk_facts (wf_step hwf P hPk)
    have hcurr_cell : (stackAt path P).getD h.toNat Prot.p4 =
        actionInputTop (path.getD P dfltStep).action := by
      rw [show h.toNat = (stackAt path P).length - 1 from by omega]
      exact htop.2
    have hunder_cell : (stackAt path P).getD (h - 1).toNat Prot.p4 = x := by
      rw [show (h - 1).toNat = (stackAt path P).length - 2 from by omega]
      exact hbelow
    have hcurr_lt : h < ((stackAt path P).length : Int) := by omega
    have hunder_lt : h - 1 < ((stackAt path P).length : Int) := by omega
    have hu0 : (0 : Int) ≤ h - 1 := by omega
    rw [eval_mkAnd_four_true_iff]
    rcases prot_cases (actionInputTop (path.getD P dfltStep).action) with hi | hi <;>
      rcases prot_cases x with hxx | hxx
    · -- top 4, under 4: pop_4_4
      rw [hi] at hcurr_cell
      rw [hxx] at hunder_cell
      have ha := pop_id_44 (hxx ▸ hx_pop) hi
      refine ⟨?_, ?_, ?_, ?_⟩
      · apply eval_implies_true
        intro _
        rw [eval_boolFormula, hu_eq, ← hsrc, ← ha]
        exact hact
      · apply eval_implies_true
        intro hpair
        rw [eval_mkAnd_pair_true_iff] at hpair
        have h6 := hpair.2
        rw [evalA_y6, encY6_of_cell_p4 (le_of_lt hPk) hunder_cell] at h6
        exact Bool.noConfusion h6
      · apply eval_implies_true
        intro hpair
        rw [eval_mkAnd_pair_true_iff] at hpair
        have h6 := hpair.1
        rw [evalA_y6, encY6_of_cell_p4 (le_of_lt hPk) hcurr_cell] at h6
        exact Bool.noConfusion h6
      · apply eval_implies_true
        intro hpair
        rw [eval_mkAnd_pair_true_iff] at hpair
        have h6 := hpair.1
        rw [evalA_y6, encY6_of_cell_p4 (le_of_lt hPk) hcurr_cell] at h6
        exact Bool.noConfusion h6
    · -- top 4, under 6: pop_6_4
      rw [hi] at hcurr_cell
      rw [hxx] at hunder_cell
      have ha := pop_id_64 (hxx ▸ hx_pop) hi
      refine ⟨?_, ?_, ?_, ?_⟩
      · apply eval_implies_true
        intro hpair
        rw [eval_mkAnd_pair_true_iff] at hpair
        have h4 := hpair.2
        rw [evalA_y4, encY4pad_of_cell_p6 (le_of_lt hPk) hunder_lt hunder_cell] at h4
        exact Bool.noConfusion h4
      · apply eval_implies_true
        intro _
        rw [eval_boolFormula, hu_eq, ← hsrc, ← ha]
        exact hact
      · apply eval_implies_true
        intro hpair
        rw [eval_mkAnd_pair_true_iff] at hpair
        have h6 := hpair.1
        rw [evalA_y6, encY6_of_cell_p4 (le_of_lt hPk) hcurr_cell] at h6
        exact Bool.noConfusion h6
      · apply eval_implies_true
        intro hpair
        rw [eval_mkAnd_pair_true_iff] at hpair
        have h6 := hpair.1
        rw [evalA_y6, encY6_of_cell_p4 (le_of_lt hPk) hcurr_cell] at h6
        exact Bool.noConfusion h6
    · -- top 6, under 4: pop_4_6
      rw [hi] at hcurr_cell
      rw [hxx] at hunder_cell
      have ha := pop_id_46 (hxx ▸ hx_pop) hi
      refine ⟨?_, ?_, ?_, ?_⟩
      · apply eval_implies_true
        intro hpair
        rw [eval_mkAnd_pair_true_iff] at hpair
        have h4 := hpair.1
        rw [evalA_y4, encY4pad_of_cell_p6 (le_of_lt hPk) hcurr_lt hcurr_cell] at h4
        exact Bool.noConfusion h4
      · apply eval_implies_true
        intro hpair
        rw [eval_mkAnd_pair_true_iff] at hpair
        have h4 := hpair.1
        rw [evalA_y4, encY4pad_of_cell_p6 (le_of_lt hPk) hcurr_lt hcurr_cell] at h4
        exact Bool.noConfusion h4
      · apply eval_implies_true
        intro _
        rw [eval_boolFormula, hu_eq, ← hsrc, ← ha]
        exact hact
      · apply eval_implies_true
        intro hpair
        rw [eval_mkAnd_pair_true_iff] at hpair
        have h6 := hpair.2
        rw [evalA_y6, encY6_of_cell_p4 (le_of_lt hPk) hunder_cell] at h6
        exact Bool.noConfusion h6
    · -- top 6, under 6: pop_6_6
      rw [hi] at hcurr_cell
      rw [hxx] at hunder_cell
      have ha := pop_id_66 (hxx ▸ hx_pop) hi
      refine ⟨?_, ?_, ?_, ?_⟩
      · apply eval_implies_true
        intro hpair
        rw [eval_mkAnd_pair_true_iff] at hpair
        have h4 := hpair.1
        rw [evalA_y4, encY4pad_of_cell_p6 (le_of_lt hPk) hcurr_lt hcurr_cell] at h4
        exact Bool.noConfusion h4
      · apply eval_implies_true
        intro hpair
        rw [eval_mkAnd_pair_true_iff] at hpair
        have h4 := hpair.1
        rw [evalA_y4, encY4pad_of_cell_p6 (le_of_lt hPk) hcurr_lt hcurr_cell] at h4
        exact Bool.noConfusion h4
      · apply eval_implies_true
        intro hpair
        rw [eval_mkAnd_pair_true_iff] at hpair
        have h4 := hpair.2
        rw [evalA_y4, encY4pad_of_cell_p6 (le_of_lt hPk) hunder_lt hunder_cell] at h4
        exact Bool.noConfusion h4
      · apply eval_implies_true
        intro _
        rw [eval_boolFormula, hu_eq, ← hsrc, ← ha]
        exact hact

theorem can_input_4_of_action {network : TunnelNetwork} {u : Int} {a : TnAction}
    (hact : network.hasAction u a = true) (hi : actionInputTop a = Prot.p4) :
    (network.hasAction u TnAction.transmit_4 || network.hasAction u TnAction.push_4_4 ||
     network.hasAction u TnAction.push_4_6 || network.hasAction u TnAction.pop_4_4 ||
     network.hasAction u TnAction.pop_6_4) = true := by
  cases a <;> simp_all [actionInputTop]

theorem can_input_6_of_action {network : TunnelNetwork} {u : Int} {a : TnAction}
    (hact : network.hasAction u a = true) (hi : actionInputTop a = Prot.p6) :
    (network.hasAction u TnAction.transmit_6 || network.hasAction u TnAction.push_6_4 ||
     network.hasAction u TnAction.push_6_6 || network.hasAction u TnAction.pop_4_6 ||
     network.hasAction u TnAction.pop_6_6) = true := by
  cases a <;> simp_all [actionInputTop]

theorem phi7_enc {network : TunnelNetwork} {k : Nat} {path : List tn_step}
    (hwf : wfPath network k path = true) (pos : Int) (hpos : pos ∈ intRange k) :
    (tn_operation_feasibility network k pos).eval (encodeModelPadded network k path) = true := by
  obtain ⟨hp0, hpk⟩ := mem_intRange.mp hpos
  obtain ⟨P, rfl⟩ : ∃ P : Nat, pos = (P : Int) := ⟨pos.toNat, by omega⟩
  have hPk : P < k := by omega
  unfold tn_operation_feasibility
  rw [eval_mkAnd_true_iff]
  intro f hf
  rcases List.mem_flatMap.mp hf with ⟨h, hh, hf2⟩
  rcases List.mem_flatMap.mp hf2 with ⟨u, hu, hf3⟩
  obtain ⟨hsrc, -, -, hact, htop, -, -⟩ := stepOk_facts (wf_step hwf P hPk)
  have hlen1 := (wf_height_bounds hwf P (le_of_lt hPk)).1
  rcases List.mem_append.mp hf3 with hft | hft
  · cases hc4 : (network.hasAction u TnAction.transmit_4 || network.hasAction u TnAction.push_4_4 ||
        network.hasAction u TnAction.push_4_6 || network.hasAction u TnAction.pop_4_4 ||
        network.hasAction u TnAction.pop_6_4) with
    | true => rw [if_pos hc4] at hft; cases hft
    | false =>
      rw [if_neg (by rw [hc4]; exact Bool.false_ne_true)] at hft
      rcases List.mem_cons.mp hft with rfl | hft
      · apply eval_implies_true
        intro hx
        rw [evalA_x] at hx
        obtain ⟨hu_eq, hh_eq⟩ := (encX_true_iff (le_of_lt hPk)).mp hx
        have hcurr_cell : (stackAt path P).getD h.toNat Prot.p4 =
            actionInputTop (path.getD P dfltStep).action := by
          rw [show h.toNat = (stackAt path P).length - 1 from by omega]
          exact htop.2
        rcases prot_cases (actionInputTop (path.getD P dfltStep).action) with hi | hi
        · exfalso
          have := can_input_4_of_action hact hi
          rw [hsrc, ← hu_eq] at this
          rw [hc4] at this
          exact Bool.noConfusion this
        · rw [hi] at hcurr_cell
          have hlt : h < ((stackAt path P).length : Int) := by omega
          simp only [Formula.eval, tn_4_variable, A_y4,
            encY4pad_of_cell_p6 (le_of_lt hPk) hlt hcurr_cell]
          rfl
      · cases hft
  · cases hc6 : (network.hasAction u TnAction.transmit_6 || network.hasAction u TnAction.push_6_4 ||
        network.hasAction u TnAction.push_6_6 || network.hasAction u TnAction.pop_4_6 ||
        network.hasAction u TnAction.pop_6_6) with
    | true => rw [if_pos hc6] at hft; cases hft
    | false =>
      rw [if_neg (by rw [hc6]; exact Bool.false_ne_true)] at hft
      rcases List.mem_cons.mp hft with rfl | hft
      · apply eval_implies_true
        intro hx
        rw [evalA_x] at hx
        obtain ⟨hu_eq, hh_eq⟩ := (encX_true_iff (le_of_lt hPk)).mp hx
        have hcurr_cell : (stackAt path P).getD h.toNat Prot.p4 =
            actionInputTop (path.getD P dfltStep).action := by
          rw [show h.toNat = (stackAt path P).length - 1 from by omega]
          exact htop.2
        rcases prot_cases (actionInputTop (path.getD P dfltStep).action) with hi | hi
        · rw [hi] at hcurr_cell
          simp only [Formula.eval, tn_6_variable, A_y6,
            encY6_of_cell_p4 (le_of_lt hPk) hcurr_cell]
          rfl
        · exfalso
          have := can_input_6_of_action hact hi
          rw [hsrc, ← hu_eq] at this
          rw [hc6] at this
          exact Bool.noConfusion this
      · cases hft

theorem edge_valid_next_mem {network : TunnelNetwork} {length : Nat} (pos : Int)
    {h u w h' : Int}
    (hw : w ∈ intRange network.numNodes) (hedge : network.isEdge u w = true)
    (hcase : h' = h ∨ (h' = h + 1 ∧ h + 1 < ((get_stack_size length : Nat) : Int)) ∨
      (h' = h - 1 ∧ 0 ≤ h - 1)) :
    tn_path_variable w (pos + 1) h' ∈ tn_edge_valid_next network length pos h u := by
  unfold tn_edge_valid_next
  apply List.mem_flatMap.mpr
  refine ⟨w, hw, ?_⟩
  rw [if_pos hedge]
  rcases hcase with rfl | ⟨rfl, hlt⟩ | ⟨rfl, hge⟩
  · exact List.mem_append_left _ (List.mem_append_left _ (List.mem_singleton.mpr rfl))
  · refine List.mem_append_left _ (List.mem_append_right _ ?_)
    rw [if_pos hlt]
    exact List.mem_singleton.mpr rfl
  · refine List.mem_append_right _ ?_
    rw [if_pos hge]
    exact List.mem_singleton.mpr rfl

theorem edge_node_eval {network : TunnelNetwork} {length : Nat} {v : Var → Bool}
    {pos h u : Int}
    (H : v (Var.x u pos h) = true → ∃ w h', w ∈ intRange network.numNodes ∧
      network.isEdge u w = true ∧
      (h' = h ∨ (h' = h + 1 ∧ h + 1 < ((get_stack_size length : Nat) : Int)) ∨
        (h' = h - 1 ∧ 0 ≤ h - 1)) ∧
      v (Var.x w (pos + 1) h') = true) :
    (tn_edge_node_constraint network length pos h u).eval v = true := by
  unfold tn_edge_node_constraint
  by_cases hemp : (tn_edge_valid_next network length pos h u).isEmpty = true
  · rw [if_pos hemp]
    simp only [Formula.eval, tn_path_variable]
    cases hx : v (Var.x u pos h)
    · rfl
    · exfalso
      obtain ⟨w, h', hwmem, hedge, hcase, -⟩ := H hx
      have hmem := edge_valid_next_mem pos hwmem hedge hcase
      rw [List.isEmpty_iff] at hemp
      rw [hemp] at hmem
      cases hmem
  · rw [if_neg hemp]
    apply eval_implies_true
    intro hx
    rw [eval_mkOr_true_iff]
    obtain ⟨w, h', hwmem, hedge, hcase, hval⟩ := H hx
    exact ⟨tn_path_variable w (pos + 1) h',
      edge_valid_next_mem pos hwmem hedge hcase, hval⟩

theorem phi11_enc {network : TunnelNetwork} {k : Nat} {path : List tn_step}
    (hwf : wfPath network k path = true) :
    (tn_edge_constraints network k).eval (encodeModelPadded network k path) = true := by
  unfold tn_edge_constraints
  rw [eval_mkAnd_map_true_iff]
  intro pos hpos
  obtain ⟨hp0, hpk⟩ := mem_intRange.mp hpos
  obtain ⟨P, rfl⟩ : ∃ P : Nat, pos = (P : Int) := ⟨pos.toNat, by omega⟩
  have hPk : P < k := by omega
  unfold tn_edge_pos_constraint
  rw [eval_mkAnd_map_true_iff]
  intro h hh
  unfold tn_edge_height_constraint
  rw [eval_mkAnd_map_true_iff]
  intro u hu
  apply edge_node_eval
  intro hx
  rw [A_x] at hx
  obtain ⟨hu_eq, hh_eq⟩ := (encX_true_iff (le_of_lt hPk)).mp hx
  obtain ⟨hsrc, -, hedge, -, -, -, hpopf⟩ := stepOk_facts (wf_step hwf P hPk)
  have hlen1 := (wf_height_bounds hwf P (le_of_lt hPk)).1
  have hlenS := (wf_height_bounds hwf P (le_of_lt hPk)).2
  have hlen1' := (wf_height_bounds hwf (P + 1) (by omega)).1
  have hlenS' := (wf_height_bounds hwf (P + 1) (by omega)).2
  refine ⟨nodeAt network path (P + 1), ((stackAt path (P + 1)).length : Int) - 1,
    mem_intRange.mpr (wf_node_bounds hwf (P + 1) (by omega)), ?_, ?_, ?_⟩
  · rw [hu_eq, ← hsrc, wf_node_succ]
    exact hedge
  · rcases action_cases (path.getD P dfltStep).action with ⟨t1, t2, -⟩ | ⟨y, hy, -⟩ | ⟨x0, hx0, hxp⟩
    · left
      rw [wf_stack_succ, nextStack_transmit _ t1 t2]
      omega
    · right
      left
      rw [wf_stack_succ, nextStack_len_push _ hy]
      constructor
      · simp only [List.length_append, List.length_cons, List.length_nil]
        omega
      · have : (stackAt path (P + 1)).length ≤ get_stack_size k := hlenS'
        rw [wf_stack_succ, nextStack_len_push _ hy] at this
        simp only [List.length_append, List.length_cons, List.length_nil] at this
        omega
    · right
      right
      have h2L := (hpopf x0 hx0).1
      rw [wf_stack_succ, nextStack_pop _ hxp hx0, List.length_dropLast]
      omega
  · rw [show ((P : Int) + 1) = ((P + 1 : Nat) : Int) from by omega, A_x]
    exact (encX_true_iff (by omega)).mpr ⟨rfl, rfl⟩

theorem eval_mkAnd_three_true_iff {v : Var → Bool} {a b c : Formula} :
    (mkAnd [a, b, c]).eval v = true ↔
    a.eval v = true ∧ b.eval v = true ∧ c.eval v = true := by
  simp [mkAnd, Formula.eval, Bool.and_eq_true, and_assoc]

theorem prefix_equal_enc {network : TunnelNetwork} {k : Nat} {path : List tn_step}
    {P : Nat} (hP : P ≤ k) (hP1 : P + 1 ≤ k) {limit : Int}
    (hrange : ∀ j : Nat, (j : Int) < limit →
      j < (stackAt path P).length ∧ j < (stackAt path (P + 1)).length)
    (hcells : ∀ j : Nat, (j : Int) < limit →
      (stackAt path P).getD j Prot.p4 = (stackAt path (P + 1)).getD j Prot.p4) :
    (tn_prefix_equal (P : Int) ((P : Int) + 1) limit).eval
      (encodeModelPadded network k path) = true := by
  unfold tn_prefix_equal
  by_cases hlim : limit ≤ 0
  · rw [if_pos hlim]
    rfl
  · rw [if_neg hlim]
    rw [eval_mkAnd_map_true_iff]
    intro j hj
    obtain ⟨hj0, hjlim⟩ := mem_intRange.mp hj
    obtain ⟨J, rfl⟩ : ∃ J : Nat, j = (J : Int) := ⟨j.toNat, by omega⟩
    have hJ : (J : Int) < limit := by omega
    obtain ⟨hr1, hr2⟩ := hrange J hJ
    have hc := hcells J hJ
    rw [eval_mkAnd_pair_true_iff]
    rw [show ((P : Int) + 1) = ((P + 1 : Nat) : Int) from by omega]
    have htn : ((J : Int)).toNat = J := Int.toNat_natCast J
    constructor
    · simp only [Formula.eval, tn_4_variable, A_y4]
      rcases prot_cases ((stackAt path P).getD J Prot.p4) with hcp | hcp
      · rw [encY4pad_of_cell_p4 hP (by omega) (by rw [htn]; exact hcp),
          encY4pad_of_cell_p4 hP1 (by omega) (by rw [htn]; exact hc ▸ hcp)]
        rfl
      · rw [encY4pad_of_cell_p6 hP (by omega) (by rw [htn]; exact hcp),
          encY4pad_of_cell_p6 hP1 (by omega) (by rw [htn]; exact hc ▸ hcp)]
        rfl
    · simp only [Formula.eval, tn_6_variable, A_y6]
      rcases prot_cases ((stackAt path P).getD J Prot.p4) with hcp | hcp
      · rw [encY6_of_cell_p4 hP (by rw [htn]; exact hcp),
          encY6_of_cell_p4 hP1 (by rw [htn]; exact hc ▸ hcp)]
        rfl
      · rw [encY6_of_cell_p6 hP (by omega) (by omega) (by rw [htn]; exact hcp),
          encY6_of_cell_p6 hP1 (by omega) (by omega) (by rw [htn]; exact hc ▸ hcp)]
        rfl

theorem phi_pres_enc {network : TunnelNetwork} {k : Nat} {path : List tn_step}
    (hwf : wfPath network k path = true) :
    (tn_stack_preservation_logic network k).eval (encodeModelPadded network k path) = true := by
  unfold tn_stack_preservation_logic
  rw [eval_mkAnd_true_iff]
  intro f hf
  rcases List.mem_append.mp hf with hf' | hf'
  swap
  · by_cases hk : 1 ≤ k
    · rw [if_pos hk] at hf'
      rcases List.mem_cons.mp hf' with rfl | hf''
      · rfl
      · cases hf''
    · rw [if_neg hk] at hf'
      cases hf'
  · rcases List.mem_map.mp hf' with ⟨P, hP, rfl⟩
    rw [List.mem_range] at hP
    have hPk : P < k := by omega
    have hPle : P ≤ k := by omega
    have hP1le : P + 1 ≤ k := by omega
    rw [eval_mkAnd_map_true_iff]
    intro h hh
    obtain ⟨hh0, hhS⟩ := mem_intRange.mp hh
    have hlen1 := (wf_height_bounds hwf P hPle).1
    have hlen1' := (wf_height_bounds hwf (P + 1) hP1le).1
    rw [eval_mkAnd_three_true_iff]
    refine ⟨?_, ?_, ?_⟩
    · -- φ8 transmission
      unfold tn_stack_preservation_transmission
      apply eval_implies_true
      intro hcond
      rw [eval_mkAnd_pair_true_iff] at hcond
      obtain ⟨h1, h2⟩ := hcond
      have ha1 := (any_node_at_enc hwf hPle).mp h1
      rw [show ((P : Int) + 1) = ((P + 1 : Nat) : Int) from by omega] at h2
      have ha2 := (any_node_at_enc hwf hP1le).mp h2
      have hlen_eq : (stackAt path (P + 1)).length = (stackAt path P).length := by omega
      obtain ⟨-, hstk_eq⟩ := step_kind_transmit hwf hPk hlen_eq
      apply prefix_equal_enc hPle hP1le
      · intro j hj
        rw [hstk_eq]
        omega
      · intro j hj
        rw [hstk_eq]
    · -- φ9 encapsulation
      unfold tn_stack_preservation_encapsulation
      apply eval_implies_true
      intro hcond
      rw [eval_mkAnd_pair_true_iff] at hcond
      obtain ⟨h1, h2⟩ := hcond
      by_cases hS' : h + 1 < ((get_stack_size k : Nat) : Int)
      · rw [if_pos hS'] at h2
        have ha1 := (any_node_at_enc hwf hPle).mp h1
        rw [show ((P : Int) + 1) = ((P + 1 : Nat) : Int) from by omega] at h2
        have ha2 := (any_node_at_enc hwf hP1le).mp h2
        have hlen_eq : (stackAt path (P + 1)).length = (stackAt path P).length + 1 := by omega
        obtain ⟨y, hy, hstk⟩ := step_kind_push hwf hPk hlen_eq
        apply prefix_equal_enc hPle hP1le
        · intro j hj
          rw [hstk]
          simp only [List.length_append, List.length_cons, List.length_nil]
          omega
        · intro j hj
          rw [hstk, getD_append_lt _ _ _ _ (by omega)]
      · rw [if_neg hS'] at h2
        exact Bool.noConfusion h2
    · -- φ10 decapsulation
      unfold tn_stack_preservation_decapsulation
      apply eval_implies_true
      intro hcond
      rw [eval_mkAnd_pair_true_iff] at hcond
      obtain ⟨h1, h2⟩ := hcond
      by_cases hge : (0 : Int) ≤ h - 1
      · rw [if_pos hge] at h2
        have ha1 := (any_node_at_enc hwf hPle).mp h1
        rw [show ((P : Int) + 1) = ((P + 1 : Nat) : Int) from by omega] at h2
        have ha2 := (any_node_at_enc hwf hP1le).mp h2
        have hlen_eq : (stackAt path (P + 1)).length + 1 = (stackAt path P).length := by omega
        obtain ⟨x, hx, hxp, hstk, h2L, -⟩ := step_kind_pop hwf hPk hlen_eq
        apply prefix_equal_enc hPle hP1le
        · intro j hj
          rw [hstk, List.length_dropLast]
          omega
        · intro j hj
          rw [hstk, getD_dropLast _ _ _ (by omega)]
      · rw [if_neg hge] at h2
        exact Bool.noConfusion h2

/-- C3, amended: for every network, every `k` and every well-formed path of
length `k`, the assignment that encodes the path's configurations and stack
contents and additionally sets exactly one protocol bit (here `y4`) on every
cell strictly above the active height satisfies the formula returned by
`tn_reduction` (with the literal both-false-above-top assignment of the claim,
φ6 is violated — see `tn_literal_encoding_fails_on_path3`). -/
theorem tn_completeness_padded (network : TunnelNetwork) (k : Nat) (path : List tn_step)
    (hwf : wfPath network k path = true) :
    (tn_reduction network k).eval (encodeModelPadded network k path) = true := by
  unfold tn_reduction
  rw [eval_mkAnd_true_iff]
  simp only [List.mem_cons, List.not_mem_nil, or_false, forall_eq_or_imp, forall_eq]
  refine ⟨phi1_enc hwf, phi2_enc hwf, ?_, ?_, ?_, ?_, ?_, phi_pres_enc hwf, phi11_enc hwf⟩
  · exact eval_mkAnd_map_true_iff.mpr (phi3_enc hwf)
  · exact eval_mkAnd_map_true_iff.mpr (phi4_enc hwf)
  · exact eval_mkAnd_map_true_iff.mpr (phi5_enc hwf)
  · exact eval_mkAnd_map_true_iff.mpr (phi6_enc hwf)
  · exact eval_mkAnd_map_true_iff.mpr (phi7_enc hwf)

/-- Witness for `tn_completeness_padded` on the concrete two-transmission
path `path3` through `net3`. -/
theorem tn_completeness_padded_witness :
    wfPath net3 2 path3 = true ∧
    Formula.eval (encodeModelPadded net3 2 path3) (tn_reduction net3 2) = true :=
  ⟨by decide, tn_completeness_padded net3 2 path3 (by decide)⟩
